import Mathlib

/-!
Verification development for the unischema validation engine.

The definitions below are a shallow embedding of the TypeScript sources:
  - `src/types/index.ts`        (data model)
  - `src/core/validators.ts`    (type validators, rule validators, registry)
  - `src/validators/utils.ts`   (shared helpers: `isEmpty`, `createError`, ...)
  - `src/core/engine.ts`        (synchronous engine, current version with options)
  - `src/core/async-engine.ts`  (asynchronous engine)
  - `src/schema/schema.ts`      (composition operators: `partial`, `required`, ...)

JavaScript values are embedded as the inductive `Value`; JS machine numbers are
modelled as `Int` (the claims under study only exercise integral arithmetic),
with a separate `nanV` constructor so the engine's `isNaN` branches stay
meaningful.  Functions that can throw are embedded in `Except JsError`;
engine code without a `try/catch` propagates the error, exactly as a thrown
JS exception propagates out of a function.  Promises of the async engine are
embedded by their settle time and outcome (`AsyncBehavior`), which is enough
to decide every race the engine performs.
-/

set_option maxHeartbeats 1000000

namespace Unischema

/-! ## JavaScript value model -/

/-- Embedding of the JS runtime values the engine can see.  `nanV` is the
number `NaN`; `dateV none` is an `Invalid Date` object. -/
inductive Value where
  | undef : Value
  | nullV : Value
  | nanV : Value
  | str : String → Value
  | num : Int → Value
  | boolV : Bool → Value
  | dateV : Option Int → Value
  | arr : List Value → Value
  | obj : List (String × Value) → Value

/-- JS `typeof`. -/
def jsTypeof : Value → String
  | .undef => "undefined"
  | .nullV => "object"
  | .nanV => "number"
  | .str _ => "string"
  | .num _ => "number"
  | .boolV _ => "boolean"
  | .dateV _ => "object"
  | .arr _ => "object"
  | .obj _ => "object"

/-- JS `Array.isArray`. -/
def isJsArray : Value → Bool
  | .arr _ => true
  | _ => false

/-- SameValueZero, as used by `Array.prototype.includes`: primitives compare
structurally (and `NaN` matches `NaN`); objects, arrays and dates compare by
reference, which between a deserialized rule parameter and an input value is
always `false` (aliasing between the two is not representable here). -/
def jsSameValueZero : Value → Value → Bool
  | .undef, .undef => true
  | .nullV, .nullV => true
  | .nanV, .nanV => true
  | .str a, .str b => a == b
  | .num a, .num b => a == b
  | .boolV a, .boolV b => a == b
  | _, _ => false

/-- Model of JS `String(v)` string coercion (host behavior; no claim in this
development depends on it). -/
def jsValueToString : Value → String
  | .undef => "undefined"
  | .nullV => "null"
  | .nanV => "NaN"
  | .str s => s
  | .num n => toString n
  | .boolV b => if b then "true" else "false"
  | .dateV _ => "[Date]"
  | .arr _ => "[Array]"
  | .obj _ => "[object Object]"

/-- Property read `data[key]` on a plain object: first binding wins, absent
keys read as `undefined`. -/
def jsLookup (d : List (String × Value)) (k : String) : Value :=
  match d.find? (fun p => p.1 == k) with
  | some p => p.2
  | none => (.undef : Value)

/-- The own enumerable string-keyed entries of a value, as used by the cast
`value as Record<string, unknown>` followed by property reads: a non-object
has no such entries, so every read yields `undefined`. -/
def asRecordValue : Value → List (String × Value)
  | .obj fs => fs
  | _ => []

/-- JS `path.split('.')`, computed over the character list (for the
single-character separator this agrees with JS `split`: the empty string
yields `[""]`, separators at the ends yield empty segments). -/
def jsSplitDot (s : String) : List String :=
  (s.toList.splitOn '.').map (fun cs => String.mk cs)

/-- `context.path.split('.').filter(p => p !== '')`, the sync engine's path
array computation. -/
def jsSplitDotFiltered (s : String) : List String :=
  (jsSplitDot s).filter (fun t => t != "")

/-! ## Error and result model (src/types/index.ts) -/

inductive Severity where
  | hard : Severity
  | soft : Severity
deriving DecidableEq, Repr

structure ValidationError where
  field : String
  path : Option (List String)
  code : String
  message : String
  severity : Severity
  received : Option Value
  expected : Option Value

/-- Build a `ValidationError` with only the always-populated components, as
`createError` in `src/validators/utils.ts` / `src/core/validators.ts` does. -/
def createError (path : String) (code message : String) (soft : Bool) : ValidationError :=
  { field := path
    path := none
    code := code
    message := message
    severity := if soft then .soft else .hard
    received := none
    expected := none }

structure ValidationResult where
  valid : Bool
  hardErrors : List ValidationError
  softErrors : List ValidationError
  errorsByField : Option (List (String × List ValidationError))

/-- A thrown JS exception (its message). -/
structure JsError where
  errMsg : String
deriving DecidableEq, Repr

/-- The position being validated. -/
structure ValidatorContext where
  path : String
  root : Value
  parent : Option Value

/-- Result shape a `custom` rule's user callback may return:
a boolean or `{ valid, message? }`. -/
inductive CustomResult where
  | ofBool : Bool → CustomResult
  | ofObj : Bool → Option String → CustomResult

/-- Outcome of an async refine callback's promise once it settles. -/
inductive RefineOutcome where
  | resolveBool : Bool → RefineOutcome
  | resolveObj : Bool → Option String → RefineOutcome
  | rejected : String → RefineOutcome

/-- Behavior of one invocation of an async refine callback: it can throw
before returning a promise, or return a promise that settles after
`settleMs` milliseconds with the given outcome. -/
inductive AsyncBehavior where
  | throwsSync : String → AsyncBehavior
  | settles : Nat → RefineOutcome → AsyncBehavior

/-- The parameter bag of a rule.  The source stores
`params?: Record<string, unknown>`; this embedding gives one typed slot per
key the translated validators read.  `validateFn` / `validateAsyncFn` hold
the executable callbacks of `custom` / `refineAsync` rules; user callbacks
may throw, hence `Except`. -/
structure RuleParams where
  value : Option Int := none
  patternStr : Option String := none
  values : Option (List Value) := none
  fieldRef : Option String := none
  validateFn : Option (Value → ValidatorContext → Except JsError CustomResult) := none
  validateAsyncFn : Option (Value → AsyncBehavior) := none
  soft : Option Bool := none
  message : Option String := none

structure ValidationRule where
  type : String
  params : Option RuleParams := none
  message : Option String := none
  soft : Option Bool := none
  async : Option Bool := none
  debounce : Option Nat := none
  timeout : Option Nat := none

inductive FieldType where
  | string : FieldType
  | number : FieldType
  | boolean : FieldType
  | date : FieldType
  | array : FieldType
  | object : FieldType
deriving DecidableEq, Repr

/-- `FieldDefinition` of `src/types/index.ts`.  A nested schema is carried by
its field list (the engine and the builder only ever read `schema.fields` of
a nested schema). -/
structure FieldDefinition where
  type : FieldType
  rules : List ValidationRule
  required : Bool
  defaultValue : Option Value
  schema : Option (List (String × FieldDefinition))
  items : Option FieldDefinition
  meta : Option (List (String × Value))
  transforms : List (Value → Value)
  preprocess : Option (Value → Value)
  nullable : Bool
  nullish : Bool

/-- A field with only type, rules and requiredness set, as
`BaseFieldBuilder.build()` produces. -/
def mkField (t : FieldType) (rules : List ValidationRule) (req : Bool) : FieldDefinition :=
  ⟨t, rules, req, none, none, none, none, [], none, false, false⟩

structure SchemaDefinition where
  fields : List (String × FieldDefinition)
  meta : Option (List (String × Value)) := none
  passthrough : Option Bool := none
  strict : Option Bool := none
  catchall : Option FieldDefinition := none

/-- How an `errorMap` result is interpreted: an object with a `message` key
and no `field` key replaces only the message, anything else replaces the
whole error. -/
inductive ErrorMapResult where
  | msgOnly : String → ErrorMapResult
  | full : ValidationError → ErrorMapResult

structure ValidationOptions where
  errorMap : Option (ValidationError → ErrorMapResult) := none
  abortEarly : Option Bool := none
  aggregateByField : Option Bool := none

/-- `validate(schema, data)` with the options argument left out. -/
def noOptions : ValidationOptions := {}

/-! ## Type validators (src/core/validators.ts, `typeValidators`) -/

/-- Host model of `new Date(string)` parsing: strings of decimal digits parse
to that many epoch milliseconds, everything else is an invalid date.  No
claim in this development depends on which strings parse. -/
def jsDateParse (s : String) : Option Int :=
  if s ≠ "" && s.all Char.isDigit then some (s.toNat!) else none

/-- `value === undefined`. -/
def isUndefV : Value → Bool
  | .undef => true
  | _ => false

/-- `value === null`. -/
def isNullValue : Value → Bool
  | .nullV => true
  | _ => false

/-- `value !== undefined && value !== null`. -/
def isPresentV (v : Value) : Bool :=
  !isUndefV v && !isNullValue v

def typeValidatorString (v : Value) (ctx : ValidatorContext) : Option ValidationError :=
  if isPresentV v && jsTypeof v != "string" then
    some (createError ctx.path "INVALID_TYPE" ("Expected string, got " ++ jsTypeof v) false)
  else none

def typeValidatorNumber (v : Value) (ctx : ValidatorContext) : Option ValidationError :=
  if isPresentV v && jsTypeof v != "number" then
    some (createError ctx.path "INVALID_TYPE" ("Expected number, got " ++ jsTypeof v) false)
  else
    match v with
    | .nanV => some (createError ctx.path "INVALID_NUMBER" "Value is not a valid number" false)
    | _ => none

def typeValidatorBoolean (v : Value) (ctx : ValidatorContext) : Option ValidationError :=
  if isPresentV v && jsTypeof v != "boolean" then
    some (createError ctx.path "INVALID_TYPE" ("Expected boolean, got " ++ jsTypeof v) false)
  else none

def typeValidatorDate (v : Value) (ctx : ValidatorContext) : Option ValidationError :=
  match v with
  | .undef => none
  | .nullV => none
  | .dateV t =>
      match t with
      | none => some (createError ctx.path "INVALID_DATE" "Invalid date value" false)
      | some _ => none
  | .str s =>
      match jsDateParse s with
      | none => some (createError ctx.path "INVALID_DATE" "Invalid date format" false)
      | some _ => none
  | w => some (createError ctx.path "INVALID_TYPE" ("Expected date, got " ++ jsTypeof w) false)

def typeValidatorArray (v : Value) (ctx : ValidatorContext) : Option ValidationError :=
  if isPresentV v && !isJsArray v then
    some (createError ctx.path "INVALID_TYPE" ("Expected array, got " ++ jsTypeof v) false)
  else none

def typeValidatorObject (v : Value) (ctx : ValidatorContext) : Option ValidationError :=
  if isPresentV v && (jsTypeof v != "object" || isJsArray v) then
    some (createError ctx.path "INVALID_TYPE" ("Expected object, got " ++ jsTypeof v) false)
  else none

/-- `getTypeValidator`: the `typeValidators` record has an entry for every
`FieldType`. -/
def getTypeValidator (t : FieldType) : Value → ValidatorContext → Option ValidationError :=
  match t with
  | .string => typeValidatorString
  | .number => typeValidatorNumber
  | .boolean => typeValidatorBoolean
  | .date => typeValidatorDate
  | .array => typeValidatorArray
  | .object => typeValidatorObject

/-! ## Rule validators (src/core/validators.ts and src/validators/...) -/

/-- A rule validator.  The second argument is the (possibly absent) parameter
bag; a throwing validator is an `Except.error`. -/
abbrev ValidatorFn :=
  Value → Option RuleParams → ValidatorContext → Except JsError (Option ValidationError)

/-- `params?.soft as boolean` with JS truthiness: absent reads as `false`. -/
def pSoft (p : Option RuleParams) : Bool :=
  (p.bind RuleParams.soft).getD false

/-- `params?.message as string | undefined`. -/
def pMessage (p : Option RuleParams) : Option String :=
  p.bind RuleParams.message

/-- `message || fallback`: the empty string is falsy in JS. -/
def jsOrMessage (m : Option String) (fallback : String) : String :=
  match m with
  | some s => if s = "" then fallback else s
  | none => fallback

/-- `isEmpty` of `src/validators/utils.ts`: `undefined`, `null` or `''`. -/
def valueIsEmpty : Value → Bool
  | .undef => true
  | .nullV => true
  | .str s => s == ""
  | _ => false

def requiredValidator : ValidatorFn := fun v _ ctx =>
  let isEmpty :=
    match v with
    | .undef => true
    | .nullV => true
    | .str s => s == ""
    | .arr xs => xs.isEmpty
    | _ => false
  if isEmpty then
    .ok (some (createError ctx.path "REQUIRED" "This field is required" false))
  else
    .ok none

/-- `ruleValidators.min`.  A JS comparison `x < undefined` is `false`, so a
missing `value` parameter never produces an error. -/
def minValidator : ValidatorFn := fun v p ctx =>
  let minv := p.bind RuleParams.value
  let soft := pSoft p
  let msg := pMessage p
  match v with
  | .undef => .ok none
  | .nullV => .ok none
  | .num n =>
      match minv with
      | some m =>
          if n < m then
            .ok (some (createError ctx.path "MIN_VALUE"
              (jsOrMessage msg ("Value must be at least " ++ toString m)) soft))
          else .ok none
      | none => .ok none
  | .str s =>
      match minv with
      | some m =>
          if (s.length : Int) < m then
            .ok (some (createError ctx.path "MIN_LENGTH"
              (jsOrMessage msg ("Must be at least " ++ toString m ++ " characters")) soft))
          else .ok none
      | none => .ok none
  | .arr xs =>
      match minv with
      | some m =>
          if (xs.length : Int) < m then
            .ok (some (createError ctx.path "MIN_ITEMS"
              (jsOrMessage msg ("Must have at least " ++ toString m ++ " items")) soft))
          else .ok none
      | none => .ok none
  | _ => .ok none

def maxValidator : ValidatorFn := fun v p ctx =>
  let maxv := p.bind RuleParams.value
  let soft := pSoft p
  let msg := pMessage p
  match v with
  | .undef => .ok none
  | .nullV => .ok none
  | .num n =>
      match maxv with
      | some m =>
          if n > m then
            .ok (some (createError ctx.path "MAX_VALUE"
              (jsOrMessage msg ("Value must be at most " ++ toString m)) soft))
          else .ok none
      | none => .ok none
  | .str s =>
      match maxv with
      | some m =>
          if (s.length : Int) > m then
            .ok (some (createError ctx.path "MAX_LENGTH"
              (jsOrMessage msg ("Must be at most " ++ toString m ++ " characters")) soft))
          else .ok none
      | none => .ok none
  | .arr xs =>
      match maxv with
      | some m =>
          if (xs.length : Int) > m then
            .ok (some (createError ctx.path "MAX_ITEMS"
              (jsOrMessage msg ("Must have at most " ++ toString m ++ " items")) soft))
          else .ok none
      | none => .ok none
  | _ => .ok none

/-- Acceptance of the email regex `/^[^\s@]+@[^\s@]+\.[^\s@]+$/`: no
whitespace anywhere, exactly one `@` with a non-empty part before it, and
after it a dot with non-empty text on both sides. -/
def emailRegexAccepts (s : String) : Bool :=
  let cs := s.toList
  if cs.any Char.isWhitespace then false
  else
    match s.splitOn "@" with
    | [local_, domain] =>
        local_ ≠ "" &&
        (List.range domain.length).any (fun i =>
          domain.toList.getD i ' ' == '.' && i > 0 && i + 1 < domain.length)
    | _ => false

def emailValidator : ValidatorFn := fun v p ctx =>
  if valueIsEmpty v then .ok none
  else
    let soft := pSoft p
    let msg := pMessage p
    match v with
    | .str s =>
        if emailRegexAccepts s then .ok none
        else .ok (some (createError ctx.path "INVALID_EMAIL"
          (jsOrMessage msg "Invalid email address") soft))
    | _ => .ok (some (createError ctx.path "INVALID_EMAIL" "Email must be a string" soft))

def notEmptyValidator : ValidatorFn := fun v p ctx =>
  if valueIsEmpty v then .ok none
  else
    let soft := pSoft p
    let msg := pMessage p
    match v with
    | .arr xs =>
        if xs.isEmpty then
          .ok (some (createError ctx.path "INVALID_NOT_EMPTY"
            (jsOrMessage msg "Array must not be empty") soft))
        else .ok none
    | _ => .ok none

/-- Host model of `new RegExp(pattern).test(s)`: substring containment, with
the missing-pattern read coerced to the string "undefined".  No claim in
this development depends on which strings match. -/
def jsRegexTest (pat : Option String) (s : String) : Bool :=
  match pat with
  | some q => q = "" || (s.splitOn q).length > 1
  | none => (s.splitOn "undefined").length > 1

def patternValidator : ValidatorFn := fun v p ctx =>
  match v with
  | .undef => .ok none
  | .nullV => .ok none
  | .str s =>
      if s = "" then .ok none
      else
        let pat := p.bind RuleParams.patternStr
        let soft := pSoft p
        let msg := pMessage p
        if jsRegexTest pat s then .ok none
        else .ok (some (createError ctx.path "PATTERN_MISMATCH"
          (jsOrMessage msg "Value does not match required pattern") soft))
  | _ => .ok none

def joinCommaSpace : List String → String
  | [] => ""
  | [s] => s
  | s :: rest => s ++ ", " ++ joinCommaSpace rest

/-- `ruleValidators.enum`.  Reading `.includes` off an absent `values`
parameter throws a `TypeError`. -/
def enumValidator : ValidatorFn := fun v p ctx =>
  match v with
  | .undef => .ok none
  | .nullV => .ok none
  | _ =>
      let soft := pSoft p
      let msg := pMessage p
      match p.bind RuleParams.values with
      | none => .error ⟨"TypeError: Cannot read properties of undefined (reading includes)"⟩
      | some vs =>
          if vs.any (fun w => jsSameValueZero w v) then .ok none
          else .ok (some (createError ctx.path "INVALID_ENUM"
            (jsOrMessage msg ("Value must be one of: " ++ joinCommaSpace (vs.map jsValueToString))) soft))

def customValidator : ValidatorFn := fun v p ctx =>
  let soft := pSoft p
  let msg := pMessage p
  match p.bind RuleParams.validateFn with
  | none => .ok none
  | some f => do
      let result ← f v ctx
      match result with
      | .ofBool b =>
          if b then pure none
          else pure (some (createError ctx.path "CUSTOM_VALIDATION"
            (jsOrMessage msg "Validation failed") soft))
      | .ofObj ok m =>
          if ok then pure none
          else pure (some (createError ctx.path "CUSTOM_VALIDATION"
            (jsOrMessage m (jsOrMessage msg "Validation failed")) soft))

def integerValidator : ValidatorFn := fun v p ctx =>
  let soft := pSoft p
  let msg := pMessage p
  match v with
  | .undef => .ok none
  | .nullV => .ok none
  | .num _ => .ok none
  | _ => .ok (some (createError ctx.path "NOT_INTEGER"
      (jsOrMessage msg "Value must be an integer") soft))

/-- The validator registry (`getValidator`): the translated slice of the
built-in `ruleValidators` record; the runtime custom-validator map is empty
here.  An unknown tag resolves to nothing and the engine skips the rule. -/
def getValidator (name : String) : Option ValidatorFn :=
  if name = "required" then some requiredValidator
  else if name = "min" then some minValidator
  else if name = "max" then some maxValidator
  else if name = "email" then some emailValidator
  else if name = "notEmpty" then some notEmptyValidator
  else if name = "pattern" then some patternValidator
  else if name = "enum" then some enumValidator
  else if name = "custom" then some customValidator
  else if name = "integer" then some integerValidator
  else none

/-! ## Synchronous engine (src/core/engine.ts) -/

/-- `{...rule.params, soft: rule.soft, message: rule.message}`: the engine
passes the rule's parameter bag with `soft` and `message` overridden by the
rule-level values (a spread always writes the key, even with `undefined`). -/
def mergeRuleParams (rule : ValidationRule) : RuleParams :=
  { rule.params.getD {} with soft := rule.soft, message := rule.message }

/-- `errors.push({...error, path: context.path.split('.').filter(p => p !== '')})`. -/
def withSyncPath (ctx : ValidatorContext) (e : ValidationError) : ValidationError :=
  { e with path := some (jsSplitDotFiltered ctx.path) }

/-- The rule loop of `validateField`: unknown tags are logged and skipped,
each firing validator appends at most one error (with the path array set);
a thrown exception propagates. -/
def runRules (pv : Value) (ctx : ValidatorContext) :
    List ValidationRule → Except JsError (List ValidationError)
  | [] => .ok []
  | rule :: rest =>
      match getValidator rule.type with
      | none => runRules pv ctx rest
      | some f => do
          let e ← f pv (some (mergeRuleParams rule)) ctx
          let restErrs ← runRules pv ctx rest
          match e with
          | some err => pure (withSyncPath ctx err :: restErrs)
          | none => pure restErrs

/-- The nullish early return at the top of `validateField`:
`null`/`undefined` permitted by the field's flags on a non-required field. -/
def nullishEarlyReturn (fd : FieldDefinition) (v : Value) : Bool :=
  (match v with
   | .nullV => fd.nullish || fd.nullable
   | .undef => fd.nullish
   | _ => false) && !fd.required

/-- Apply `preprocess`, then each transform in order. -/
def processValue (fd : FieldDefinition) (v : Value) : Value :=
  fd.transforms.foldl (fun acc t => t acc)
    (match fd.preprocess with
     | some p => p v
     | none => v)

/-- The `isMissing` computation of the required check (on the processed
value). -/
def isMissingForRequired (fd : FieldDefinition) (pv : Value) : Bool :=
  (isUndefV pv && !fd.nullish) ||
  (isNullValue pv && !fd.nullable && !fd.nullish) ||
  ((match pv with | .str s => s == "" | _ => false) && !fd.nullable && !fd.nullish) ||
  (match pv with | .arr xs => xs.isEmpty | _ => false)

/-- Application of the caller's `errorMap` to one error. -/
def applyErrorMap (opts : ValidationOptions) (e : ValidationError) : ValidationError :=
  match opts.errorMap with
  | none => e
  | some m =>
      match m e with
      | .msgOnly s => { e with message := s }
      | .full e2 => e2

/-- The per-error loop of `validateSchema`: map each error, bucket it by
severity, and abort on the first hard error when `abortEarly` is requested.
Returns the two buckets and whether the walk aborted. -/
def bucketErrors (opts : ValidationOptions) :
    List ValidationError → List ValidationError → List ValidationError →
    List ValidationError × List ValidationError × Bool
  | [], hard, soft => (hard, soft, false)
  | e :: rest, hard, soft =>
      let e2 := applyErrorMap opts e
      if e2.severity = .soft then bucketErrors opts rest hard (soft ++ [e2])
      else if opts.abortEarly.getD false then (hard ++ [e2], soft, true)
      else bucketErrors opts rest (hard ++ [e2]) soft

/-- Grouping for `errorsByField`: JS object keys in first-insertion order. -/
def addErrorToGroups (gs : List (String × List ValidationError)) (e : ValidationError) :
    List (String × List ValidationError) :=
  if gs.any (fun g => g.1 == e.field) then
    gs.map (fun g => if g.1 == e.field then (g.1, g.2 ++ [e]) else g)
  else gs ++ [(e.field, [e])]

def groupByField (errs : List ValidationError) : List (String × List ValidationError) :=
  errs.foldl addErrorToGroups []

/-- `buildValidationResult`. -/
def buildValidationResult (hard soft : List ValidationError) (opts : ValidationOptions) :
    ValidationResult :=
  { valid := hard.isEmpty
    hardErrors := hard
    softErrors := soft
    errorsByField :=
      if opts.aggregateByField.getD false then some (groupByField (hard ++ soft)) else none }

theorem sizeOf_schema_lt {fd : FieldDefinition} {sfs : List (String × FieldDefinition)}
    (h : fd.schema = some sfs) : sizeOf sfs < sizeOf fd := by
  cases fd with
  | mk t rules req dv sch its meta trs pre nb ns =>
      simp only [FieldDefinition.schema] at h
      subst h
      simp only [FieldDefinition.mk.sizeOf_spec, Option.some.sizeOf_spec]
      omega

theorem sizeOf_items_lt {fd : FieldDefinition} {idef : FieldDefinition}
    (h : fd.items = some idef) : sizeOf idef < sizeOf fd := by
  cases fd with
  | mk t rules req dv sch its meta trs pre nb ns =>
      simp only [FieldDefinition.items] at h
      subst h
      simp only [FieldDefinition.mk.sizeOf_spec, Option.some.sizeOf_spec]
      omega

mutual

/-- `validateField` of `src/core/engine.ts`. -/
def validateField (fd : FieldDefinition) (v : Value) (ctx : ValidatorContext) :
    Except JsError (List ValidationError) :=
  if nullishEarlyReturn fd v then .ok []
  else
    let pv := processValue fd v
    match getTypeValidator fd.type pv ctx with
    | some te => .ok [withSyncPath ctx te]
    | none =>
        if fd.required then
          if isMissingForRequired fd pv then
            match getValidator "required" with
            | some f =>
                match f pv none ctx with
                | .ok (some e) => .ok [withSyncPath ctx e]
                | .ok none => validateFieldRest fd pv ctx
                | .error err => .error err
            | none => validateFieldRest fd pv ctx
          else validateFieldRest fd pv ctx
        else
          if valueIsEmpty v then .ok []
          else validateFieldRest fd pv ctx
termination_by (sizeOf fd, 3)

/-- The tail of `validateField`: rule loop, nested-object recursion
(hard errors then soft errors of the nested result), array-item recursion. -/
def validateFieldRest (fd : FieldDefinition) (pv : Value) (ctx : ValidatorContext) :
    Except JsError (List ValidationError) := do
  let ruleErrs ← runRules pv ctx fd.rules
  let nestedErrs ←
    match fd.type with
    | .object =>
        match h : fd.schema with
        | some sfs =>
            if isPresentV pv then do
              let res ← validateSchemaFields sfs (asRecordValue pv) ctx.path (some ctx.root) noOptions
              pure (res.hardErrors ++ res.softErrors)
            else pure []
        | none => pure []
    | _ => pure []
  let itemErrs ←
    match fd.type with
    | .array =>
        match h2 : fd.items with
        | some idef =>
            match pv with
            | .arr xs => validateItemsGo idef ctx.path ctx.root (.arr xs) xs 0
            | _ => pure []
        | none => pure []
    | _ => pure []
  pure (ruleErrs ++ nestedErrs ++ itemErrs)
termination_by (sizeOf fd, 2)
decreasing_by
  all_goals
    apply Prod.Lex.left
    first
      | exact sizeOf_schema_lt (by assumption)
      | exact sizeOf_items_lt (by assumption)

/-- The array-item loop of `validateField`: element `i` is validated at path
`field[i]` with the array as parent. -/
def validateItemsGo (idef : FieldDefinition) (basePath : String) (root : Value)
    (parentArr : Value) (xs : List Value) (i : Nat) :
    Except JsError (List ValidationError) :=
  match xs with
  | [] => .ok []
  | x :: rest => do
      let ictx : ValidatorContext := ⟨basePath ++ "[" ++ toString i ++ "]", root, some parentArr⟩
      let errs ← validateField idef x ictx
      let restErrs ← validateItemsGo idef basePath root parentArr rest (i + 1)
      pure (errs ++ restErrs)
termination_by (sizeOf idef, 4 + xs.length)

/-- The field loop of `validateSchema`, carrying the hard/soft accumulators;
the third component records an `abortEarly` stop. -/
def validateFieldsGo (opts : ValidationOptions) (rootData : Value)
    (data : List (String × Value)) (basePath : String)
    (fields : List (String × FieldDefinition))
    (hard soft : List ValidationError) :
    Except JsError (List ValidationError × List ValidationError × Bool) :=
  match fields with
  | [] => .ok (hard, soft, false)
  | (fieldName, fd) :: rest => do
      let value := jsLookup data fieldName
      let path := if basePath = "" then fieldName else basePath ++ "." ++ fieldName
      let ctx : ValidatorContext := ⟨path, rootData, some (Value.obj data)⟩
      let errs ← validateField fd value ctx
      match bucketErrors opts errs hard soft with
      | (hard2, soft2, true) => .ok (hard2, soft2, true)
      | (hard2, soft2, false) => validateFieldsGo opts rootData data basePath rest hard2 soft2
termination_by (sizeOf fields, 4)

/-- `validateSchema` on a field list: walk every declared field and build
one result (`root ?? data` seeds the root). -/
def validateSchemaFields (fields : List (String × FieldDefinition))
    (data : List (String × Value)) (basePath : String) (root : Option Value)
    (opts : ValidationOptions) : Except JsError ValidationResult := do
  let rootData := root.getD (Value.obj data)
  let (hard, soft, _) ← validateFieldsGo opts rootData data basePath fields [] []
  pure (buildValidationResult hard soft opts)
termination_by (sizeOf fields, 5)

end

/-- `validate(schema, data, options)`. -/
def validate (schema : SchemaDefinition) (data : List (String × Value))
    (opts : ValidationOptions) : Except JsError ValidationResult :=
  validateSchemaFields schema.fields data "" none opts

/-- `mergeResults(...results)`. -/
def mergeResults (results : List ValidationResult) : ValidationResult :=
  let hard := results.foldl (fun acc r => acc ++ r.hardErrors) []
  let soft := results.foldl (fun acc r => acc ++ r.softErrors) []
  { valid := hard.isEmpty
    hardErrors := hard
    softErrors := soft
    errorsByField := none }

/-! ## Composition operators (src/schema/schema.ts)

`partial` clones every field builder with `_required = false` and rebuilds a
fresh schema from the clones; since `build()` projects the builder state
verbatim, at definition level this is a map setting `required := false` and
keeping everything else.  `required`/`optional` do the same for the named
subset only.  The rebuilt schema carries only `fields` (the `schema()`
constructor sets nothing else), and `strict`/`passthrough`/`catchall` then
set their one flag on such a fresh copy. -/

def partialSchema (s : SchemaDefinition) : SchemaDefinition :=
  { fields := s.fields.map (fun p => (p.1, { p.2 with required := false })) }

def required (s : SchemaDefinition) (keys : List String) : SchemaDefinition :=
  { fields := s.fields.map (fun p =>
      if keys.contains p.1 then (p.1, { p.2 with required := true }) else p) }

def optional (s : SchemaDefinition) (keys : List String) : SchemaDefinition :=
  { fields := s.fields.map (fun p =>
      if keys.contains p.1 then (p.1, { p.2 with required := false }) else p) }

def strictSchema (s : SchemaDefinition) : SchemaDefinition :=
  { fields := s.fields, strict := some true }

def passthroughSchema (s : SchemaDefinition) : SchemaDefinition :=
  { fields := s.fields, passthrough := some true }

def catchallSchema (s : SchemaDefinition) (fd : FieldDefinition) : SchemaDefinition :=
  { fields := s.fields, catchall := some fd }

/-! ## Asynchronous engine (src/core/async-engine.ts) -/

/-- `path: context.path.split('.')` — the async engine sets the raw split. -/
def withAsyncPath (ctx : ValidatorContext) (e : ValidationError) : ValidationError :=
  { e with path := some (jsSplitDot ctx.path) }

/-- `withTimeout` + `executeAsyncValidator`: race the callback's promise
against a `timeoutMs` timer; a promise that has not settled when the timer
fires loses the race.  Every failure — synchronous throw, rejection,
timeout — is caught and returned as an `ASYNC_VALIDATION_ERROR` value with
the rule's severity; a falsy settled result becomes
`ASYNC_VALIDATION_FAILED`. -/
def executeAsyncValidator (f : Value → AsyncBehavior) (v : Value) (ctx : ValidatorContext)
    (msg : Option String) (soft : Bool) (timeoutMs : Nat) : Option ValidationError :=
  let caught (m : String) : Option ValidationError :=
    some { field := ctx.path
           path := some (jsSplitDot ctx.path)
           code := "ASYNC_VALIDATION_ERROR"
           message := m
           severity := if soft then .soft else .hard
           received := some v
           expected := none }
  let failed (m : String) : Option ValidationError :=
    some { field := ctx.path
           path := some (jsSplitDot ctx.path)
           code := "ASYNC_VALIDATION_FAILED"
           message := m
           severity := if soft then .soft else .hard
           received := some v
           expected := none }
  match f v with
  | .throwsSync m => caught m
  | .settles t outcome =>
      if t < timeoutMs then
        match outcome with
        | .resolveBool b =>
            if b then none else failed (jsOrMessage msg "Async validation failed")
        | .resolveObj ok m2 =>
            if ok then none
            else failed (jsOrMessage m2 (jsOrMessage msg "Async validation failed"))
        | .rejected m2 => caught m2
      else
        caught ("Async validation timed out after " ++ toString timeoutMs ++ "ms")

/-- `createDebouncedValidation` for a single call with no concurrent
displacement on its key: the debounce timer fires and the promise resolves
with the validator's result (the timer delay itself is elided). -/
def createDebouncedValidation (f : Value → AsyncBehavior) (v : Value) (ctx : ValidatorContext)
    (msg : Option String) (soft : Bool) (timeoutMs : Nat) (_debounceMs : Nat) :
    Option ValidationError :=
  executeAsyncValidator f v ctx msg soft timeoutMs

/-- `rule.timeout || 5000`: `0` is falsy in JS. -/
def effectiveTimeout (t : Option Nat) : Nat :=
  match t with
  | some n => if n = 0 then 5000 else n
  | none => 5000

/-- The rule loop of `validateFieldAsync`: sync rules run inline (their
errors are pushed during the loop, a thrown exception rejects the whole
call); `refineAsync` rules are fanned out and their results appended after
the loop, in rule order.  Returns (sync errors, async errors). -/
def runRulesAsync (v : Value) (ctx : ValidatorContext) :
    List ValidationRule → Except JsError (List ValidationError × List ValidationError)
  | [] => .ok ([], [])
  | rule :: rest =>
      if rule.async.getD false && rule.type == "refineAsync" then
        match rule.params.bind RuleParams.validateAsyncFn with
        | none => runRulesAsync v ctx rest
        | some f =>
            let timeoutMs := effectiveTimeout rule.timeout
            let res :=
              match rule.debounce with
              | some d =>
                  if d > 0 then
                    createDebouncedValidation f v ctx rule.message (rule.soft.getD false) timeoutMs d
                  else executeAsyncValidator f v ctx rule.message (rule.soft.getD false) timeoutMs
              | none => executeAsyncValidator f v ctx rule.message (rule.soft.getD false) timeoutMs
            do
              let (syncE, asyncE) ← runRulesAsync v ctx rest
              pure (syncE, (match res with | some e => [e] | none => []) ++ asyncE)
      else
        match getValidator rule.type with
        | none => runRulesAsync v ctx rest
        | some g => do
            let e ← g v (some (mergeRuleParams rule)) ctx
            let (syncE, asyncE) ← runRulesAsync v ctx rest
            pure ((match e with | some err => [withAsyncPath ctx err] | none => []) ++ syncE, asyncE)

mutual

/-- `validateFieldAsync`: type check, required check and the optional-empty
short-circuit run on the raw value (the async engine applies no
preprocess/transforms); then rules, nested objects and array items. -/
def validateFieldAsync (fd : FieldDefinition) (v : Value) (ctx : ValidatorContext) :
    Except JsError (List ValidationError) :=
  match getTypeValidator fd.type v ctx with
  | some te => .ok [withAsyncPath ctx te]
  | none =>
      if fd.required then
        match getValidator "required" with
        | some f =>
            match f v none ctx with
            | .ok (some e) => .ok [withAsyncPath ctx e]
            | .ok none => validateFieldAsyncRest fd v ctx
            | .error err => .error err
        | none => validateFieldAsyncRest fd v ctx
      else
        if valueIsEmpty v then .ok []
        else validateFieldAsyncRest fd v ctx
termination_by (sizeOf fd, 3)

/-- The tail of `validateFieldAsync`: rules (sync inline, async joined
after), nested-object recursion, array-item recursion. -/
def validateFieldAsyncRest (fd : FieldDefinition) (v : Value) (ctx : ValidatorContext) :
    Except JsError (List ValidationError) := do
  let (syncE, asyncE) ← runRulesAsync v ctx fd.rules
  let nestedErrs ←
    match fd.type with
    | .object =>
        match h : fd.schema with
        | some sfs =>
            if isPresentV v then do
              let res ← validateSchemaAsyncFields sfs (asRecordValue v) ctx.path (some ctx.root)
              pure (res.hardErrors ++ res.softErrors)
            else pure []
        | none => pure []
    | _ => pure []
  let itemErrs ←
    match fd.type with
    | .array =>
        match h2 : fd.items with
        | some idef =>
            match v with
            | .arr xs => validateItemsAsyncGo idef ctx.path ctx.root (.arr xs) xs 0
            | _ => pure []
        | none => pure []
    | _ => pure []
  pure (syncE ++ asyncE ++ nestedErrs ++ itemErrs)
termination_by (sizeOf fd, 2)
decreasing_by
  all_goals
    apply Prod.Lex.left
    first
      | exact sizeOf_schema_lt (by assumption)
      | exact sizeOf_items_lt (by assumption)

/-- The array-item fan-out of `validateFieldAsync` (results concatenated in
structural order). -/
def validateItemsAsyncGo (idef : FieldDefinition) (basePath : String) (root : Value)
    (parentArr : Value) (xs : List Value) (i : Nat) :
    Except JsError (List ValidationError) :=
  match xs with
  | [] => .ok []
  | x :: rest => do
      let ictx : ValidatorContext := ⟨basePath ++ "[" ++ toString i ++ "]", root, some parentArr⟩
      let errs ← validateFieldAsync idef x ictx
      let restErrs ← validateItemsAsyncGo idef basePath root parentArr rest (i + 1)
      pure (errs ++ restErrs)
termination_by (sizeOf idef, 4 + xs.length)

/-- The field fan-out of `validateSchemaAsync` (`Promise.all`): one error
list per field, in schema order; a rejection anywhere rejects the whole
call. -/
def validateFieldsAsyncGo (rootData : Value) (data : List (String × Value))
    (basePath : String) (fields : List (String × FieldDefinition)) :
    Except JsError (List (List ValidationError)) :=
  match fields with
  | [] => .ok []
  | (fieldName, fd) :: rest => do
      let value := jsLookup data fieldName
      let path := if basePath = "" then fieldName else basePath ++ "." ++ fieldName
      let ctx : ValidatorContext := ⟨path, rootData, some (Value.obj data)⟩
      let errs ← validateFieldAsync fd value ctx
      let restRes ← validateFieldsAsyncGo rootData data basePath rest
      pure (errs :: restRes)
termination_by (sizeOf fields, 4)

/-- `validateSchemaAsync` on a field list: await every field, then bucket
every error by severity in field order. -/
def validateSchemaAsyncFields (fields : List (String × FieldDefinition))
    (data : List (String × Value)) (basePath : String) (root : Option Value) :
    Except JsError ValidationResult := do
  let rootData := root.getD (Value.obj data)
  let perField ← validateFieldsAsyncGo rootData data basePath fields
  let allErrs := perField.flatten
  pure { valid := (allErrs.filter (fun e => e.severity = .hard)).isEmpty
         hardErrors := allErrs.filter (fun e => e.severity = .hard)
         softErrors := allErrs.filter (fun e => e.severity = .soft)
         errorsByField := none }
termination_by (sizeOf fields, 5)

end

/-- `validateAsync(schema, data)`. -/
def validateAsync (schema : SchemaDefinition) (data : List (String × Value)) :
    Except JsError ValidationResult :=
  validateSchemaAsyncFields schema.fields data "" none

/-! ## Schema interchange

Modelled from the spec: the repository ships no serializer, but §6 of the
spec requires a `SchemaDefinition` to survive a round-trip through a textual
interchange format (e.g. JSON) with identical validation behavior.  The
format is modelled at the level of JSON value trees (the host's
`JSON.stringify`/`JSON.parse` pair is a bijection between such trees and
their text).  Function-valued components (custom/refine callbacks,
transforms, preprocess) have no JSON representation and are dropped by
encoding, exactly as `JSON.stringify` drops function properties. -/

inductive Json where
  | jnull : Json
  | jbool : Bool → Json
  | jnum : Int → Json
  | jstr : String → Json
  | jarr : List Json → Json
  | jobj : List (String × Json) → Json

def encOptStr : Option String → Json
  | none => .jnull
  | some s => .jstr s

def decOptStr : Json → Option (Option String)
  | .jnull => some none
  | .jstr s => some (some s)
  | _ => none

def encOptInt : Option Int → Json
  | none => .jnull
  | some n => .jnum n

def decOptInt : Json → Option (Option Int)
  | .jnull => some none
  | .jnum n => some (some n)
  | _ => none

def encOptBool : Option Bool → Json
  | none => .jnull
  | some b => .jbool b

def decOptBool : Json → Option (Option Bool)
  | .jnull => some none
  | .jbool b => some (some b)
  | _ => none

def encOptNat : Option Nat → Json
  | none => .jnull
  | some n => .jnum (Int.ofNat n)

def decOptNat : Json → Option (Option Nat)
  | .jnull => some none
  | .jnum (Int.ofNat k) => some (some k)
  | _ => none

mutual

def encodeValue : Value → Json
  | .undef => .jobj [("k", .jstr "undef")]
  | .nullV => .jobj [("k", .jstr "null")]
  | .nanV => .jobj [("k", .jstr "nan")]
  | .str s => .jobj [("k", .jstr "str"), ("v", .jstr s)]
  | .num n => .jobj [("k", .jstr "num"), ("v", .jnum n)]
  | .boolV b => .jobj [("k", .jstr "bool"), ("v", .jbool b)]
  | .dateV t => .jobj [("k", .jstr "date"), ("v", encOptInt t)]
  | .arr xs => .jobj [("k", .jstr "arr"), ("v", .jarr (encodeValueList xs))]
  | .obj fs => .jobj [("k", .jstr "obj"), ("v", .jobj (encodeValueFields fs))]

def encodeValueList : List Value → List Json
  | [] => []
  | x :: r => encodeValue x :: encodeValueList r

def encodeValueFields : List (String × Value) → List (String × Json)
  | [] => []
  | (k, x) :: r => (k, encodeValue x) :: encodeValueFields r

end

mutual

def decodeValue : Json → Option Value
  | .jobj [("k", .jstr "undef")] => some .undef
  | .jobj [("k", .jstr "null")] => some .nullV
  | .jobj [("k", .jstr "nan")] => some .nanV
  | .jobj [("k", .jstr "str"), ("v", .jstr s)] => some (.str s)
  | .jobj [("k", .jstr "num"), ("v", .jnum n)] => some (.num n)
  | .jobj [("k", .jstr "bool"), ("v", .jbool b)] => some (.boolV b)
  | .jobj [("k", .jstr "date"), ("v", tj)] => (decOptInt tj).map .dateV
  | .jobj [("k", .jstr "arr"), ("v", .jarr js)] => (decodeValueList js).map .arr
  | .jobj [("k", .jstr "obj"), ("v", .jobj fs)] => (decodeValueFields fs).map .obj
  | _ => none

def decodeValueList : List Json → Option (List Value)
  | [] => some []
  | j :: r => do
      let v ← decodeValue j
      let vs ← decodeValueList r
      pure (v :: vs)

def decodeValueFields : List (String × Json) → Option (List (String × Value))
  | [] => some []
  | (k, j) :: r => do
      let v ← decodeValue j
      let vs ← decodeValueFields r
      pure ((k, v) :: vs)

end

def encodeFieldType : FieldType → Json
  | .string => .jstr "string"
  | .number => .jstr "number"
  | .boolean => .jstr "boolean"
  | .date => .jstr "date"
  | .array => .jstr "array"
  | .object => .jstr "object"

def decodeFieldType : Json → Option FieldType
  | .jstr "string" => some .string
  | .jstr "number" => some .number
  | .jstr "boolean" => some .boolean
  | .jstr "date" => some .date
  | .jstr "array" => some .array
  | .jstr "object" => some .object
  | _ => none

def encodeParams (p : RuleParams) : Json :=
  .jobj [("value", encOptInt p.value),
         ("pattern", encOptStr p.patternStr),
         ("values", match p.values with | none => .jnull | some vs => .jarr (encodeValueList vs)),
         ("field", encOptStr p.fieldRef),
         ("soft", encOptBool p.soft),
         ("message", encOptStr p.message)]

def decodeParams : Json → Option RuleParams
  | .jobj [("value", a), ("pattern", b), ("values", c), ("field", d), ("soft", e), ("message", f)] => do
      let value ← decOptInt a
      let patternStr ← decOptStr b
      let values ←
        match c with
        | .jnull => some none
        | .jarr js => (decodeValueList js).map some
        | _ => none
      let fieldRef ← decOptStr d
      let soft ← decOptBool e
      let message ← decOptStr f
      pure { value := value, patternStr := patternStr, values := values, fieldRef := fieldRef,
             validateFn := none, validateAsyncFn := none, soft := soft, message := message }
  | _ => none

def encOptParamsJ : Option RuleParams → Json
  | none => .jnull
  | some p => encodeParams p

def decOptParamsJ : Json → Option (Option RuleParams)
  | .jnull => some none
  | j => (decodeParams j).map some

def encodeRule (r : ValidationRule) : Json :=
  .jobj [("type", .jstr r.type),
         ("params", encOptParamsJ r.params),
         ("message", encOptStr r.message),
         ("soft", encOptBool r.soft),
         ("async", encOptBool r.async),
         ("debounce", encOptNat r.debounce),
         ("timeout", encOptNat r.timeout)]

def decodeRule : Json → Option ValidationRule
  | .jobj [("type", .jstr t), ("params", pj), ("message", mj), ("soft", sj), ("async", aj), ("debounce", dj), ("timeout", tj)] => do
      let params ← decOptParamsJ pj
      let message ← decOptStr mj
      let soft ← decOptBool sj
      let async ← decOptBool aj
      let debounce ← decOptNat dj
      let timeout ← decOptNat tj
      pure { type := t, params := params, message := message, soft := soft,
             async := async, debounce := debounce, timeout := timeout }
  | _ => none

/-- A parameter bag with no executable callback. -/
def callbackFreeParams (p : RuleParams) : Bool :=
  p.validateFn.isNone && p.validateAsyncFn.isNone

def callbackFreeRule (r : ValidationRule) : Bool :=
  match r.params with
  | none => true
  | some p => callbackFreeParams p

def encOptValueJ : Option Value → Json
  | none => .jnull
  | some v => encodeValue v

def decOptValueJ : Json → Option (Option Value)
  | .jnull => some none
  | j => (decodeValue j).map some

def encOptMetaJ : Option (List (String × Value)) → Json
  | none => .jnull
  | some m => .jobj (encodeValueFields m)

def decOptMetaJ : Json → Option (Option (List (String × Value)))
  | .jnull => some none
  | .jobj mf => (decodeValueFields mf).map some
  | _ => none

theorem sizeOf_schema_proj_lt (fd : FieldDefinition) : sizeOf fd.schema < sizeOf fd := by
  cases fd with
  | mk t rules req dv sch its meta trs pre nb ns =>
      simp only [FieldDefinition.schema, FieldDefinition.mk.sizeOf_spec]
      omega

theorem sizeOf_items_proj_lt (fd : FieldDefinition) : sizeOf fd.items < sizeOf fd := by
  cases fd with
  | mk t rules req dv sch its meta trs pre nb ns =>
      simp only [FieldDefinition.items, FieldDefinition.mk.sizeOf_spec]
      omega

mutual

def encodeField (fd : FieldDefinition) : Json :=
  .jobj [("type", encodeFieldType fd.type),
         ("rules", .jarr (fd.rules.map encodeRule)),
         ("required", .jbool fd.required),
         ("defaultValue", encOptValueJ fd.defaultValue),
         ("schema", encOptFieldListJ fd.schema),
         ("items", encOptFieldJ fd.items),
         ("meta", encOptMetaJ fd.meta),
         ("nullable", .jbool fd.nullable),
         ("nullish", .jbool fd.nullish)]
termination_by sizeOf fd
decreasing_by
  · exact sizeOf_schema_proj_lt fd
  · exact sizeOf_items_proj_lt fd

def encodeFieldList : List (String × FieldDefinition) → List (String × Json)
  | [] => []
  | (k, f) :: r => (k, encodeField f) :: encodeFieldList r
termination_by l => sizeOf l

def encOptFieldJ : Option FieldDefinition → Json
  | none => .jnull
  | some i => encodeField i
termination_by o => sizeOf o

def encOptFieldListJ : Option (List (String × FieldDefinition)) → Json
  | none => .jnull
  | some sfs => .jobj (encodeFieldList sfs)
termination_by o => sizeOf o

end

/-- `Json.jarr` projection used by the decoder. -/
def decJarr : Json → Option (List Json)
  | .jarr l => some l
  | _ => none

/-- `Json.jbool` projection used by the decoder. -/
def decJbool : Json → Option Bool
  | .jbool b => some b
  | _ => none

mutual

def decodeField (j : Json) : Option FieldDefinition :=
  match j with
  | .jobj [(k1, tj), (k2, rj), (k3, qj), (k4, dj), (k5, sj), (k6, ij), (k7, mj), (k8, nbj), (k9, nsj)] =>
      if k1 == "type" && k2 == "rules" && k3 == "required" && k4 == "defaultValue" &&
         k5 == "schema" && k6 == "items" && k7 == "meta" && k8 == "nullable" && k9 == "nullish" then do
        let t ← decodeFieldType tj
        let rjl ← decJarr rj
        let rules ← rjl.mapM decodeRule
        let req ← decJbool qj
        let dv ← decOptValueJ dj
        let sch ← decOptFieldListJ sj
        let its ← decOptFieldJ ij
        let meta ← decOptMetaJ mj
        let nb ← decJbool nbj
        let ns ← decJbool nsj
        pure ⟨t, rules, req, dv, sch, its, meta, [], none, nb, ns⟩
      else none
  | _ => none
termination_by (sizeOf j, 0)

def decodeFieldList : List (String × Json) → Option (List (String × FieldDefinition))
  | [] => some []
  | (k, j) :: r => do
      let f ← decodeField j
      let rest ← decodeFieldList r
      pure ((k, f) :: rest)
termination_by l => (sizeOf l, 0)

def decOptFieldJ : Json → Option (Option FieldDefinition)
  | .jnull => some none
  | j => (decodeField j).map some
termination_by j => (sizeOf j, 1)

def decOptFieldListJ : Json → Option (Option (List (String × FieldDefinition)))
  | .jnull => some none
  | .jobj sfsj => (decodeFieldList sfsj).map some
  | _ => none
termination_by j => (sizeOf j, 1)

end

mutual

/-- A field definition carrying no executable callback anywhere: no
custom/refine parameter functions, no transforms, no preprocess, recursively
through nested schemas and item definitions. -/
def callbackFreeField (fd : FieldDefinition) : Bool :=
  fd.rules.all callbackFreeRule && fd.transforms.isEmpty && fd.preprocess.isNone &&
  callbackFreeFieldListOpt fd.schema && callbackFreeFieldOpt fd.items
termination_by sizeOf fd
decreasing_by
  · exact sizeOf_schema_proj_lt fd
  · exact sizeOf_items_proj_lt fd

def callbackFreeFieldOpt : Option FieldDefinition → Bool
  | none => true
  | some i => callbackFreeField i
termination_by o => sizeOf o

def callbackFreeFieldList : List (String × FieldDefinition) → Bool
  | [] => true
  | (_, f) :: r => callbackFreeField f && callbackFreeFieldList r
termination_by l => sizeOf l

def callbackFreeFieldListOpt : Option (List (String × FieldDefinition)) → Bool
  | none => true
  | some sfs => callbackFreeFieldList sfs
termination_by o => sizeOf o

end

def encodeSchema (s : SchemaDefinition) : Json :=
  .jobj [("fields", .jobj (encodeFieldList s.fields)),
         ("meta", encOptMetaJ s.meta),
         ("passthrough", encOptBool s.passthrough),
         ("strict", encOptBool s.strict),
         ("catchall", encOptFieldJ s.catchall)]

def decodeSchema : Json → Option SchemaDefinition
  | .jobj [("fields", .jobj fj), ("meta", mj), ("passthrough", pj), ("strict", sj), ("catchall", cj)] => do
      let fields ← decodeFieldList fj
      let meta ← decOptMetaJ mj
      let passthrough ← decOptBool pj
      let strict ← decOptBool sj
      let catchall ← decOptFieldJ cj
      pure { fields := fields, meta := meta, passthrough := passthrough,
             strict := strict, catchall := catchall }
  | _ => none

def callbackFreeSchema (s : SchemaDefinition) : Bool :=
  callbackFreeFieldList s.fields && callbackFreeFieldOpt s.catchall

/-! ## Concrete instances and helper definitions used by the claims -/

/-- The shape of a field definition produced by the fluent builder
(`BaseFieldBuilder.build()` emits no transforms, no preprocess, and leaves
the nullability flags unset). -/
def builderShape (fd : FieldDefinition) : Prop :=
  fd.transforms = [] ∧ fd.preprocess = none ∧ fd.nullable = false ∧ fd.nullish = false

/-- The error the engine produces for a required field missing at a
top-level path. -/
def requiredErrorFor (path : String) : ValidationError :=
  { field := path
    path := some (jsSplitDotFiltered path)
    code := "REQUIRED"
    message := "This field is required"
    severity := .hard
    received := none
    expected := none }

/-- The context the top-level schema walk builds for field `n`. -/
def topCtx (data : List (String × Value)) (n : String) : ValidatorContext :=
  ⟨n, .obj data, some (.obj data)⟩

def ctx0 : ValidatorContext := topCtx [] "a"

def minRule (m : Int) : ValidationRule :=
  { type := "min", params := some { value := some m } }

def minSoftRule (m : Int) : ValidationRule :=
  { type := "min", params := some { value := some m }, soft := some true }

def strRequiredField : FieldDefinition := mkField .string [] true

def numRequiredMin (m : Int) : FieldDefinition := mkField .number [minRule m] true

/-- A strict-flagged schema with one declared field (claim C1). -/
def strictDemoSchema : SchemaDefinition :=
  { fields := [("name", strRequiredField)], strict := some true }

def strictDemoData : List (String × Value) :=
  [("name", .str "John"), ("extra", .str "x")]

/-- Three independently failing hard-error fields (claim C4). -/
def abortDemoSchema : SchemaDefinition :=
  { fields := [("a", numRequiredMin 100), ("b", numRequiredMin 100), ("c", numRequiredMin 100)] }

def abortDemoData : List (String × Value) :=
  [("a", .num 1), ("b", .num 2), ("c", .num 3)]

/-- An optional array field with a `min 1` rule (claim C3). -/
def arrayMinField : FieldDefinition := mkField .array [minRule 1] false

/-- An optional number field with no rules (claim C3). -/
def optionalNumberField : FieldDefinition := mkField .number [] false

/-- A required number field whose transform replaces any value by the
string "x" (claim C10). -/
def transformedNumberField : FieldDefinition :=
  { mkField .number [] true with transforms := [fun _ => .str "x"] }

/-- A required string field with the `nullish` flag set (claim C10). -/
def nullishRequiredField : FieldDefinition :=
  { mkField .string [] true with nullish := true }

/-- A `refineAsync` rule with an explicit timeout and validator (claim C5). -/
def refineAsyncRule (timeoutMs : Nat) (f : Value → AsyncBehavior) : ValidationRule :=
  { type := "refineAsync", async := some true, timeout := some timeoutMs,
    params := some { validateAsyncFn := some f } }

/-- A validator whose promise settles only after 100 ms (claim C5). -/
def slowRefineValidator : Value → AsyncBehavior :=
  fun _ => .settles 100 (.resolveBool false)

def usernameDemoSchema : SchemaDefinition :=
  { fields := [("username", mkField .string [refineAsyncRule 50 slowRefineValidator] false)] }

def usernameDemoData : List (String × Value) := [("username", .str "bob")]

/-- A synchronous `custom` rule whose user callback throws (claim C6). -/
def throwingCustomRule : ValidationRule :=
  { type := "custom", params := some { validateFn := some (fun _ _ => .error ⟨"boom"⟩) } }

def throwingDemoSchema : SchemaDefinition :=
  { fields := [("a", mkField .string [throwingCustomRule] false)] }

def throwingDemoData : List (String × Value) := [("a", .str "v")]

/-- A callback-free schema for the round-trip witness (claim C9). -/
def roundtripDemoSchema : SchemaDefinition :=
  { fields := [("email", mkField .string [minRule 3] true)] }

/-- A two-field schema for the composition witness (claim C8). -/
def composeDemoSchema : SchemaDefinition :=
  { fields := [("name", strRequiredField), ("x", numRequiredMin 18)] }

/-! ### Round-trip lemmas for the interchange encoding -/

theorem decOptStr_enc (o : Option String) : decOptStr (encOptStr o) = some o := by
  cases o <;> rfl

theorem decOptInt_enc (o : Option Int) : decOptInt (encOptInt o) = some o := by
  cases o <;> rfl

theorem decOptBool_enc (o : Option Bool) : decOptBool (encOptBool o) = some o := by
  cases o <;> rfl

theorem decOptNat_enc (o : Option Nat) : decOptNat (encOptNat o) = some o := by
  cases o <;> rfl

mutual

theorem decodeValue_encodeValue : ∀ v : Value, decodeValue (encodeValue v) = some v
  | .undef => rfl
  | .nullV => rfl
  | .nanV => rfl
  | .str _ => rfl
  | .num _ => rfl
  | .boolV _ => rfl
  | .dateV t => by cases t <;> rfl
  | .arr xs => by
      show (decodeValueList (encodeValueList xs)).map Value.arr = some (.arr xs)
      rw [decodeValueList_encodeValueList xs]
      rfl
  | .obj fs => by
      show (decodeValueFields (encodeValueFields fs)).map Value.obj = some (.obj fs)
      rw [decodeValueFields_encodeValueFields fs]
      rfl

theorem decodeValueList_encodeValueList : ∀ xs : List Value,
    decodeValueList (encodeValueList xs) = some xs
  | [] => rfl
  | x :: r => by
      show (do
        let v ← decodeValue (encodeValue x)
        let vs ← decodeValueList (encodeValueList r)
        pure (v :: vs) : Option (List Value)) = some (x :: r)
      rw [decodeValue_encodeValue x, decodeValueList_encodeValueList r]
      rfl

theorem decodeValueFields_encodeValueFields : ∀ fs : List (String × Value),
    decodeValueFields (encodeValueFields fs) = some fs
  | [] => rfl
  | (k, x) :: r => by
      show (do
        let v ← decodeValue (encodeValue x)
        let vs ← decodeValueFields (encodeValueFields r)
        pure ((k, v) :: vs) : Option (List (String × Value))) = some ((k, x) :: r)
      rw [decodeValue_encodeValue x, decodeValueFields_encodeValueFields r]
      rfl

end

theorem decodeFieldType_enc (t : FieldType) : decodeFieldType (encodeFieldType t) = some t := by
  cases t <;> rfl

theorem decodeParams_encodeParams (p : RuleParams) (h : callbackFreeParams p = true) :
    decodeParams (encodeParams p) = some p := by
  obtain ⟨v, ps, vals, fr, vf, vaf, sf, msg⟩ := p
  cases vf with
  | some f => simp [callbackFreeParams, Option.isNone] at h
  | none =>
      cases vaf with
      | some f => simp [callbackFreeParams, Option.isNone] at h
      | none =>
          cases vals with
          | none =>
              simp [encodeParams, decodeParams, decOptInt_enc, decOptStr_enc, decOptBool_enc]
          | some vs =>
              simp [encodeParams, decodeParams, decOptInt_enc, decOptStr_enc, decOptBool_enc,
                decodeValueList_encodeValueList]

theorem decOptParamsJ_enc (o : Option RuleParams)
    (h : (match o with | none => true | some p => callbackFreeParams p) = true) :
    decOptParamsJ (encOptParamsJ o) = some o := by
  cases o with
  | none => rfl
  | some p =>
      obtain ⟨l, hl⟩ : ∃ l, encodeParams p = Json.jobj l := ⟨_, rfl⟩
      simp only [encOptParamsJ, hl, decOptParamsJ]
      rw [← hl, decodeParams_encodeParams p h]
      rfl

theorem decodeRule_encodeRule (r : ValidationRule) (h : callbackFreeRule r = true) :
    decodeRule (encodeRule r) = some r := by
  obtain ⟨t, params, msg, sf, as, db, tm⟩ := r
  cases params with
  | none =>
      simp [encodeRule, decodeRule, decOptParamsJ_enc none rfl, decOptStr_enc,
        decOptBool_enc, decOptNat_enc]
  | some p =>
      have hp : callbackFreeParams p = true := by
        simpa [callbackFreeRule] using h
      simp [encodeRule, decodeRule, decOptParamsJ_enc (some p) hp, decOptStr_enc,
        decOptBool_enc, decOptNat_enc]

theorem mapM_loop_decodeRule (rs : List ValidationRule)
    (h : rs.all callbackFreeRule = true) :
    ∀ acc, List.mapM.loop decodeRule (rs.map encodeRule) acc = some (acc.reverse ++ rs) := by
  induction rs with
  | nil => intro acc; simp [List.mapM.loop]
  | cons r rest ih =>
      intro acc
      simp only [List.all_cons, Bool.and_eq_true] at h
      simp [List.mapM.loop, decodeRule_encodeRule r h.1, ih h.2]

theorem mapM_decodeRule_encodeRule (rs : List ValidationRule)
    (h : rs.all callbackFreeRule = true) :
    (rs.map encodeRule).mapM decodeRule = some rs := by
  simpa using mapM_loop_decodeRule rs h []

theorem encodeValue_jobj (v : Value) : ∃ l, encodeValue v = Json.jobj l := by
  cases v <;> exact ⟨_, rfl⟩

theorem decOptValueJ_enc (o : Option Value) : decOptValueJ (encOptValueJ o) = some o := by
  cases o with
  | none => rfl
  | some v =>
      obtain ⟨l, hl⟩ := encodeValue_jobj v
      simp only [encOptValueJ, hl, decOptValueJ]
      rw [← hl, decodeValue_encodeValue]
      rfl

theorem decOptMetaJ_enc (o : Option (List (String × Value))) :
    decOptMetaJ (encOptMetaJ o) = some o := by
  cases o with
  | none => rfl
  | some m => simp [encOptMetaJ, decOptMetaJ, decodeValueFields_encodeValueFields]

theorem encodeField_jobj (fd : FieldDefinition) :
    encodeField fd =
      Json.jobj [("type", encodeFieldType fd.type),
                 ("rules", .jarr (fd.rules.map encodeRule)),
                 ("required", .jbool fd.required),
                 ("defaultValue", encOptValueJ fd.defaultValue),
                 ("schema", encOptFieldListJ fd.schema),
                 ("items", encOptFieldJ fd.items),
                 ("meta", encOptMetaJ fd.meta),
                 ("nullable", .jbool fd.nullable),
                 ("nullish", .jbool fd.nullish)] := by
  rw [encodeField]

mutual

theorem decodeField_encodeField (fd : FieldDefinition) (h : callbackFreeField fd = true) :
    decodeField (encodeField fd) = some fd := by
  rw [callbackFreeField] at h
  simp only [Bool.and_eq_true] at h
  obtain ⟨⟨⟨⟨hrules, htrs⟩, hpre⟩, hsch⟩, hits⟩ := h
  have h1 := decOptFieldListJ_enc fd.schema hsch
  have h2 := decOptFieldJ_enc fd.items hits
  have htrs2 : fd.transforms = [] := by simpa [List.isEmpty_iff] using htrs
  have hpre2 : fd.preprocess = none := by simpa [Option.isNone_iff_eq_none] using hpre
  rw [encodeField]
  rw [decodeField]
  simp only [decodeFieldType_enc, decJarr, decJbool, decOptValueJ_enc, decOptMetaJ_enc,
    mapM_decodeRule_encodeRule fd.rules hrules, mapM_loop_decodeRule fd.rules hrules,
    h1, h2, beq_self_eq_true, Bool.and_self, Bool.true_and, Bool.and_true, if_true,
    List.reverse_nil, List.nil_append, Option.bind_eq_bind, Option.some_bind,
    Option.some.injEq]
  obtain ⟨t, rules, req, dv, sch, its, meta, trs, pre, nb, ns⟩ := fd
  have htrs3 : trs = [] := htrs2
  have hpre3 : pre = none := hpre2
  subst htrs3
  subst hpre3
  rfl
termination_by sizeOf fd
decreasing_by
  all_goals simp_wf
  · exact sizeOf_schema_proj_lt fd
  · exact sizeOf_items_proj_lt fd

theorem decodeFieldList_encodeFieldList :
    ∀ (l : List (String × FieldDefinition)), callbackFreeFieldList l = true →
      decodeFieldList (encodeFieldList l) = some l
  | [], _ => by rw [encodeFieldList, decodeFieldList]
  | (k, f) :: r, h => by
      simp only [callbackFreeFieldList, Bool.and_eq_true] at h
      have hf := decodeField_encodeField f h.1
      have hr := decodeFieldList_encodeFieldList r h.2
      rw [encodeFieldList, decodeFieldList, hf, hr]
      rfl
termination_by l => sizeOf l

theorem decOptFieldJ_enc :
    ∀ (o : Option FieldDefinition), callbackFreeFieldOpt o = true →
      decOptFieldJ (encOptFieldJ o) = some o
  | none, _ => by rw [encOptFieldJ, decOptFieldJ]
  | some i, h => by
      have hi : callbackFreeField i = true := by simpa [callbackFreeFieldOpt] using h
      rw [encOptFieldJ, encodeField_jobj i, decOptFieldJ]
      · rw [← encodeField_jobj i, decodeField_encodeField i hi]
        rfl
      · exact fun hx => by cases hx
termination_by o => sizeOf o

theorem decOptFieldListJ_enc :
    ∀ (o : Option (List (String × FieldDefinition))), callbackFreeFieldListOpt o = true →
      decOptFieldListJ (encOptFieldListJ o) = some o
  | none, _ => by rw [encOptFieldListJ, decOptFieldListJ]
  | some sfs, h => by
      have hs : callbackFreeFieldList sfs = true := by
        simpa [callbackFreeFieldListOpt] using h
      rw [encOptFieldListJ, decOptFieldListJ, decodeFieldList_encodeFieldList sfs hs]
      rfl
termination_by o => sizeOf o

end

theorem decodeSchema_encodeSchema (s : SchemaDefinition) (h : callbackFreeSchema s = true) :
    decodeSchema (encodeSchema s) = some s := by
  obtain ⟨fields, meta, pt, st, ca⟩ := s
  simp only [callbackFreeSchema, Bool.and_eq_true] at h
  have hf := decodeFieldList_encodeFieldList fields h.1
  have hc := decOptFieldJ_enc ca h.2
  simp [encodeSchema, decodeSchema, hf, hc, decOptBool_enc, decOptMetaJ_enc]

/-! ## Engine lemmas -/

theorem getTypeValidator_undef (t : FieldType) (ctx : ValidatorContext) :
    getTypeValidator t .undef ctx = none := by
  cases t <;> rfl

theorem getTypeValidator_null (t : FieldType) (ctx : ValidatorContext) :
    getTypeValidator t .nullV ctx = none := by
  cases t <;> rfl

theorem severity_not_soft {e : ValidationError} (h : ¬ e.severity = Severity.soft) :
    e.severity = .hard := by
  cases h2 : e.severity with
  | hard => rfl
  | soft => exact absurd h2 h

/-- The bucket loop keeps every error in the bucket matching its severity. -/
theorem bucketErrors_sev (opts : ValidationOptions) :
    ∀ (errs hard soft : List ValidationError),
      (∀ e ∈ hard, e.severity = .hard) → (∀ e ∈ soft, e.severity = .soft) →
      (∀ e ∈ (bucketErrors opts errs hard soft).1, e.severity = .hard) ∧
      (∀ e ∈ (bucketErrors opts errs hard soft).2.1, e.severity = .soft)
  | [], hard, soft, hh, hs => by
      rw [bucketErrors]
      exact ⟨hh, hs⟩
  | e :: rest, hard, soft, hh, hs => by
      rw [bucketErrors]
      by_cases hsev : (applyErrorMap opts e).severity = .soft
      · rw [if_pos hsev]
        refine bucketErrors_sev opts rest hard (soft ++ [applyErrorMap opts e]) hh ?_
        intro x hx
        rcases List.mem_append.mp hx with hx1 | hx2
        · exact hs x hx1
        · simp only [List.mem_singleton] at hx2
          subst hx2
          exact hsev
      · rw [if_neg hsev]
        have hh2 : ∀ x ∈ hard ++ [applyErrorMap opts e], x.severity = .hard := by
          intro x hx
          rcases List.mem_append.mp hx with hx1 | hx2
          · exact hh x hx1
          · simp only [List.mem_singleton] at hx2
            subst hx2
            exact severity_not_soft hsev
        by_cases hab : opts.abortEarly.getD false = true
        · rw [if_pos hab]
          exact ⟨hh2, hs⟩
        · rw [if_neg hab]
          exact bucketErrors_sev opts rest (hard ++ [applyErrorMap opts e]) soft hh2 hs

/-- The schema walk keeps every error in the bucket matching its severity. -/
theorem validateFieldsGo_sev (opts : ValidationOptions) (root : Value)
    (data : List (String × Value)) (bp : String) :
    ∀ (fields : List (String × FieldDefinition)) (hard soft h s : List ValidationError)
      (ab : Bool),
      (∀ e ∈ hard, e.severity = .hard) → (∀ e ∈ soft, e.severity = .soft) →
      validateFieldsGo opts root data bp fields hard soft = .ok (h, s, ab) →
      (∀ e ∈ h, e.severity = .hard) ∧ (∀ e ∈ s, e.severity = .soft) := by
  intro fields
  induction fields with
  | nil =>
      intro hard soft h s ab hh hs heq
      rw [validateFieldsGo.eq_def] at heq
      simp only [Except.ok.injEq, Prod.mk.injEq] at heq
      obtain ⟨h1, h2, _⟩ := heq
      subst h1
      subst h2
      exact ⟨hh, hs⟩
  | cons p rest ih =>
      obtain ⟨n, fd⟩ := p
      intro hard soft h s ab hh hs heq
      rw [validateFieldsGo.eq_def] at heq
      simp only [] at heq
      cases hved : validateField fd (jsLookup data n)
          ⟨if bp = "" then n else bp ++ "." ++ n, root, some (Value.obj data)⟩ with
      | error err =>
          rw [hved] at heq
          simp [Bind.bind, Except.bind] at heq
      | ok errs =>
          rw [hved] at heq
          simp only [Bind.bind, Except.bind] at heq
          obtain ⟨hbh, hbs⟩ := bucketErrors_sev opts errs hard soft hh hs
          rcases hb : bucketErrors opts errs hard soft with ⟨h2, s2, abort⟩
          rw [hb] at heq
          rw [hb] at hbh hbs
          simp only [] at hbh hbs
          cases abort with
          | true =>
              simp only [Except.ok.injEq, Prod.mk.injEq] at heq
              obtain ⟨e1, e2, _⟩ := heq
              subst e1
              subst e2
              exact ⟨hbh, hbs⟩
          | false =>
              exact ih h2 s2 h s ab hbh hbs heq

/-- Every `.ok` result of `validate` satisfies the hard/soft partition
invariants. -/
theorem validate_ok_inv (s : SchemaDefinition) (d : List (String × Value))
    (o : ValidationOptions) (r : ValidationResult) (heq : validate s d o = .ok r) :
    (r.valid = true ↔ r.hardErrors = []) ∧
    (∀ e ∈ r.hardErrors, e.severity = .hard) ∧
    (∀ e ∈ r.softErrors, e.severity = .soft) := by
  rw [validate] at heq
  rw [validateSchemaFields.eq_def] at heq
  simp only [Option.getD] at heq
  cases hgo : validateFieldsGo o (Value.obj d) d "" s.fields [] [] with
  | error err =>
      rw [hgo] at heq
      simp [Bind.bind, Except.bind] at heq
  | ok triple =>
      rcases triple with ⟨h, sErrs, ab⟩
      rw [hgo] at heq
      simp only [Bind.bind, Except.bind, pure, Except.pure, Except.ok.injEq] at heq
      obtain ⟨hh, hs⟩ := validateFieldsGo_sev o (Value.obj d) d "" s.fields [] [] h sErrs ab
        (by intro e he; cases he) (by intro e he; cases he) hgo
      subst heq
      refine ⟨?_, hh, hs⟩
      simp [buildValidationResult, List.isEmpty_iff]

theorem foldl_append_lists (f : ValidationResult → List ValidationError) :
    ∀ (results : List ValidationResult) (acc : List ValidationError),
      results.foldl (fun a r => a ++ f r) acc = acc ++ (results.map f).flatten
  | [], acc => by simp
  | r :: rest, acc => by
      simp [List.foldl_cons, foldl_append_lists f rest (acc ++ f r)]

theorem mergeResults_hardErrors (results : List ValidationResult) :
    (mergeResults results).hardErrors = (results.map (fun r => r.hardErrors)).flatten := by
  rw [mergeResults]
  simp [foldl_append_lists]

theorem mergeResults_softErrors (results : List ValidationResult) :
    (mergeResults results).softErrors = (results.map (fun r => r.softErrors)).flatten := by
  rw [mergeResults]
  simp [foldl_append_lists]

theorem mergeResults_valid (results : List ValidationResult) :
    (mergeResults results).valid = (mergeResults results).hardErrors.isEmpty := by
  rw [mergeResults]

/-! ## Claims -/

/-- C1: contrary to the spec ("a schema with `unknownKeyPolicy=strict` must
reject extra keys when validated"), the synchronous engine never consults
the schema's `strict`/`passthrough`/`catchall` flags: the result of
`validate` is invariant under any change of those flags, and a strict
schema given an object with an undeclared extra key comes back fully valid
with no errors. -/
theorem strict_flag_ignored_by_engine :
    (∀ (S : SchemaDefinition) (b p : Option Bool) (c : Option FieldDefinition)
        (d : List (String × Value)) (o : ValidationOptions),
        validate { S with strict := b, passthrough := p, catchall := c } d o =
          validate S d o) ∧
    validate strictDemoSchema strictDemoData noOptions =
      .ok { valid := true, hardErrors := [], softErrors := [], errorsByField := none } := by
  constructor
  · intro S b p c d o
    rfl
  · simp [validate, validateSchemaFields.eq_def, validateFieldsGo.eq_def, validateField.eq_def,
      validateFieldRest.eq_def, validateItemsGo.eq_def, runRules, bucketErrors,
      buildValidationResult, applyErrorMap, jsLookup, nullishEarlyReturn, processValue,
      getTypeValidator, typeValidatorString, isPresentV, isUndefV,
      isNullValue, jsTypeof, getValidator, requiredValidator,
      isMissingForRequired, valueIsEmpty, withSyncPath, jsSplitDotFiltered, jsSplitDot,
      mergeRuleParams, pSoft, pMessage, jsOrMessage, noOptions, topCtx,
      strictDemoSchema, strictDemoData, strRequiredField, mkField,
      Except.pure, Except.bind, Except.map, bind, Functor.map, pure]
  all_goals decide

/-- C2: every result `validate` returns satisfies `valid ↔ hardErrors = []`
(so `softErrors` never affects validity), every hard-bucket error has hard
severity and every soft-bucket error has soft severity; `mergeResults`
satisfies the same validity law unconditionally and preserves the
severity/bucket correspondence of its inputs. -/
theorem hard_soft_partition_law :
    (∀ (s : SchemaDefinition) (d : List (String × Value)) (o : ValidationOptions)
        (r : ValidationResult), validate s d o = .ok r →
        (r.valid = true ↔ r.hardErrors = []) ∧
        (∀ e ∈ r.hardErrors, e.severity = .hard) ∧
        (∀ e ∈ r.softErrors, e.severity = .soft)) ∧
    (∀ results : List ValidationResult,
        ((mergeResults results).valid = true ↔ (mergeResults results).hardErrors = []) ∧
        ((∀ r ∈ results, (∀ e ∈ r.hardErrors, e.severity = .hard) ∧
            (∀ e ∈ r.softErrors, e.severity = .soft)) →
          (∀ e ∈ (mergeResults results).hardErrors, e.severity = .hard) ∧
          (∀ e ∈ (mergeResults results).softErrors, e.severity = .soft))) := by
  constructor
  · exact validate_ok_inv
  · intro results
    constructor
    · rw [mergeResults_valid, List.isEmpty_iff]
    · intro hin
      constructor
      · intro e he
        rw [mergeResults_hardErrors] at he
        simp only [List.mem_flatten, List.mem_map] at he
        obtain ⟨l, ⟨r, hr, hl⟩, hel⟩ := he
        subst hl
        exact (hin r hr).1 e hel
      · intro e he
        rw [mergeResults_softErrors] at he
        simp only [List.mem_flatten, List.mem_map] at he
        obtain ⟨l, ⟨r, hr, hl⟩, hel⟩ := he
        subst hl
        exact (hin r hr).2 e hel

/-- C2 witness: the partition law applied to the concrete three-field schema
and to a singleton merge of its result. -/
theorem hard_soft_partition_law_witness :
    (∃ r, validate strictDemoSchema strictDemoData noOptions = .ok r ∧
      ((r.valid = true ↔ r.hardErrors = []) ∧
       (∀ e ∈ r.hardErrors, e.severity = .hard) ∧
       (∀ e ∈ r.softErrors, e.severity = .soft)) ∧
      ((∀ e ∈ (mergeResults [r]).hardErrors, e.severity = .hard) ∧
       (∀ e ∈ (mergeResults [r]).softErrors, e.severity = .soft))) := by
  have heq : validate strictDemoSchema strictDemoData noOptions =
      .ok { valid := true, hardErrors := [], softErrors := [], errorsByField := none } := by
    simp [validate, validateSchemaFields.eq_def, validateFieldsGo.eq_def, validateField.eq_def,
      validateFieldRest.eq_def, validateItemsGo.eq_def, runRules, bucketErrors,
      buildValidationResult, applyErrorMap, jsLookup, nullishEarlyReturn, processValue,
      getTypeValidator, typeValidatorString, isPresentV, isUndefV,
      isNullValue, jsTypeof, getValidator, requiredValidator,
      isMissingForRequired, valueIsEmpty, withSyncPath, jsSplitDotFiltered, jsSplitDot,
      mergeRuleParams, pSoft, pMessage, jsOrMessage, noOptions, topCtx,
      strictDemoSchema, strictDemoData, strRequiredField, mkField,
      Except.pure, Except.bind, Except.map, bind, Functor.map, pure]
    all_goals decide
  refine ⟨_, heq, hard_soft_partition_law.1 _ _ _ _ heq, ?_⟩
  exact (hard_soft_partition_law.2 [_]).2
    (by
      intro r hr
      simp only [List.mem_singleton] at hr
      subst hr
      exact ⟨(hard_soft_partition_law.1 _ _ _ _ heq).2.1,
             (hard_soft_partition_law.1 _ _ _ _ heq).2.2⟩)

/-- C3 counterexample: an optional field with an empty-array value does not
short-circuit (its `min` rule fires), and an optional number field with the
empty string contributes a type error — so "an absent or empty value
(undefined, null, the empty string, or the empty array) never contributes
any error" is false as stated. -/
theorem optional_empty_short_circuit_cex :
    validateField arrayMinField (Value.arr []) ctx0 =
      .ok [{ field := "a", path := some ["a"], code := "MIN_ITEMS",
             message := "Must have at least 1 items", severity := .hard,
             received := none, expected := none }] ∧
    validateField optionalNumberField (Value.str "") ctx0 =
      .ok [{ field := "a", path := some ["a"], code := "INVALID_TYPE",
             message := "Expected number, got string", severity := .hard,
             received := none, expected := none }] ∧
    validateField arrayMinField (Value.arr []) ctx0 ≠ .ok [] ∧
    validateField optionalNumberField (Value.str "") ctx0 ≠ .ok [] := by
  have h1 : validateField arrayMinField (Value.arr []) ctx0 =
      .ok [{ field := "a", path := some ["a"], code := "MIN_ITEMS",
             message := "Must have at least 1 items", severity := .hard,
             received := none, expected := none }] := by
    simp [validateField.eq_def, validateFieldRest.eq_def, validateItemsGo.eq_def, runRules,
      nullishEarlyReturn, processValue, getTypeValidator, typeValidatorArray, isPresentV,
      isUndefV, isNullValue, jsTypeof, isJsArray, getValidator, requiredValidator,
      minValidator, isMissingForRequired, valueIsEmpty, withSyncPath, jsSplitDotFiltered,
      jsSplitDot, mergeRuleParams, pSoft, pMessage, jsOrMessage, topCtx, ctx0, createError,
      arrayMinField, minRule, mkField,
      Except.pure, Except.bind, Except.map, bind, Functor.map, pure]
    all_goals decide
  have h2 : validateField optionalNumberField (Value.str "") ctx0 =
      .ok [{ field := "a", path := some ["a"], code := "INVALID_TYPE",
             message := "Expected number, got string", severity := .hard,
             received := none, expected := none }] := by
    simp [validateField.eq_def, validateFieldRest.eq_def, validateItemsGo.eq_def, runRules,
      nullishEarlyReturn, processValue, getTypeValidator, typeValidatorNumber, isPresentV,
      isUndefV, isNullValue, jsTypeof, getValidator, requiredValidator,
      isMissingForRequired, valueIsEmpty, withSyncPath, jsSplitDotFiltered, jsSplitDot,
      topCtx, ctx0, createError, optionalNumberField, mkField,
      Except.pure, Except.bind, Except.map, bind, Functor.map, pure]
    all_goals decide
  refine ⟨h1, h2, ?_, ?_⟩
  · rw [h1]
    intro hcontra
    simp at hcontra
  · rw [h2]
    intro hcontra
    simp at hcontra

/-- C3 amended: for a field with `required=false` and an original value that
is `undefined`, `null` or the empty string, validation contributes no rule,
required, nested or item errors — the result is empty when the
nullable/nullish flags allow the early return, and otherwise consists of
exactly the type check of the transformed value (which may reject a present
empty string); the empty array is not treated as absent. -/
theorem optional_empty_short_circuit_amended (fd : FieldDefinition) (v : Value)
    (ctx : ValidatorContext) (hreq : fd.required = false)
    (hv : v = .undef ∨ v = .nullV ∨ v = .str "") :
    validateField fd v ctx =
      .ok (if nullishEarlyReturn fd v then []
           else
             match getTypeValidator fd.type (processValue fd v) ctx with
             | some te => [withSyncPath ctx te]
             | none => []) := by
  rw [validateField.eq_def]
  by_cases hne : nullishEarlyReturn fd v = true
  · rw [if_pos hne, if_pos hne]
  · rw [if_neg hne, if_neg hne]
    simp only []
    cases htv : getTypeValidator fd.type (processValue fd v) ctx with
    | some te => simp [htv]
    | none =>
        simp only [htv, hreq]
        have hemp : valueIsEmpty v = true := by
          rcases hv with h | h | h <;> subst h <;> rfl
        simp [hemp]

/-- C3 amended witness: applied to an optional number field with a null
value, which yields no errors at all. -/
theorem optional_empty_short_circuit_amended_witness :
    optionalNumberField.required = false ∧
    validateField optionalNumberField Value.nullV ctx0 = .ok [] := by
  refine ⟨rfl, ?_⟩
  have h := optional_empty_short_circuit_amended optionalNumberField Value.nullV ctx0 rfl
    (Or.inr (Or.inl rfl))
  simpa [nullishEarlyReturn, optionalNumberField, mkField, processValue, getTypeValidator,
    typeValidatorNumber, isPresentV, isUndefV, isNullValue, jsTypeof] using h

/-- C7 counterexample: `min` on the empty string yields a `MIN_LENGTH`
error and `notEmpty` on the empty array yields an error, so the claim that
every built-in validator returns null on every empty/absent value
(including `''` and `[]`) is false. -/
theorem builtin_validators_empty_skip_cex :
    minValidator (Value.str "") (some { value := some 3 }) ctx0 =
      .ok (some (createError "a" "MIN_LENGTH" "Must be at least 3 characters" false)) ∧
    notEmptyValidator (Value.arr []) (some {}) ctx0 =
      .ok (some (createError "a" "INVALID_NOT_EMPTY" "Array must not be empty" false)) ∧
    minValidator (Value.str "") (some { value := some 3 }) ctx0 ≠ .ok none ∧
    notEmptyValidator (Value.arr []) (some {}) ctx0 ≠ .ok none := by
  have h1 : minValidator (Value.str "") (some { value := some 3 }) ctx0 =
      .ok (some (createError "a" "MIN_LENGTH" "Must be at least 3 characters" false)) := rfl
  have h2 : notEmptyValidator (Value.arr []) (some {}) ctx0 =
      .ok (some (createError "a" "INVALID_NOT_EMPTY" "Array must not be empty" false)) := rfl
  refine ⟨h1, h2, ?_, ?_⟩
  · rw [h1]
    simp [createError]
  · rw [h2]
    simp [createError]

/-- C7 amended: `min`, `max`, `email`, `notEmpty`, `pattern` and `enum` all
return null for `undefined` and `null` regardless of parameters; `email`,
`notEmpty` and `pattern` also skip the empty string (and `pattern` skips
non-strings such as the empty array); but the empty string and the empty
array are not skipped by `min`/`max` length checks, `notEmpty` rejects the
empty array, and `enum` subjects the empty string to membership. -/
theorem builtin_validators_null_skip_amended (p : Option RuleParams)
    (ctx : ValidatorContext) :
    minValidator .undef p ctx = .ok none ∧ minValidator .nullV p ctx = .ok none ∧
    maxValidator .undef p ctx = .ok none ∧ maxValidator .nullV p ctx = .ok none ∧
    emailValidator .undef p ctx = .ok none ∧ emailValidator .nullV p ctx = .ok none ∧
    emailValidator (.str "") p ctx = .ok none ∧
    notEmptyValidator .undef p ctx = .ok none ∧ notEmptyValidator .nullV p ctx = .ok none ∧
    notEmptyValidator (.str "") p ctx = .ok none ∧
    patternValidator .undef p ctx = .ok none ∧ patternValidator .nullV p ctx = .ok none ∧
    patternValidator (.str "") p ctx = .ok none ∧ patternValidator (.arr []) p ctx = .ok none ∧
    enumValidator .undef p ctx = .ok none ∧ enumValidator .nullV p ctx = .ok none := by
  refine ⟨rfl, rfl, rfl, rfl, ?_, ?_, ?_, ?_, ?_, ?_, rfl, rfl, ?_, rfl, rfl, rfl⟩
  · simp [emailValidator, valueIsEmpty]
  · simp [emailValidator, valueIsEmpty]
  · simp [emailValidator, valueIsEmpty]
  · simp [notEmptyValidator, valueIsEmpty]
  · simp [notEmptyValidator, valueIsEmpty]
  · simp [notEmptyValidator, valueIsEmpty]
  · simp [patternValidator]

/-- C10 counterexample: a required number field whose transform rewrites the
missing value into a string reports `INVALID_TYPE` rather than `REQUIRED`,
and a required field with the `nullish` flag set reports nothing at all for
an undefined value — so "a required field whose value is missing always
yields a REQUIRED error" is false as stated. -/
theorem type_validator_missing_value_cex :
    validateField transformedNumberField Value.undef ctx0 =
      .ok [{ field := "a", path := some ["a"], code := "INVALID_TYPE",
             message := "Expected number, got string", severity := .hard,
             received := none, expected := none }] ∧
    validateField nullishRequiredField Value.undef ctx0 = .ok [] := by
  constructor
  · simp [validateField.eq_def, validateFieldRest.eq_def, validateItemsGo.eq_def, runRules,
      nullishEarlyReturn, processValue, getTypeValidator, typeValidatorNumber, isPresentV,
      isUndefV, isNullValue, jsTypeof, getValidator, requiredValidator,
      isMissingForRequired, valueIsEmpty, withSyncPath, jsSplitDotFiltered, jsSplitDot,
      topCtx, ctx0, createError, transformedNumberField, mkField,
      Except.pure, Except.bind, Except.map, bind, Functor.map, pure]
    all_goals decide
  · simp [validateField.eq_def, validateFieldRest.eq_def, validateItemsGo.eq_def, runRules,
      nullishEarlyReturn, processValue, getTypeValidator, typeValidatorString, isPresentV,
      isUndefV, isNullValue, jsTypeof, getValidator, requiredValidator,
      isMissingForRequired, valueIsEmpty, withSyncPath, jsSplitDotFiltered, jsSplitDot,
      topCtx, ctx0, createError, nullishRequiredField, mkField,
      Except.pure, Except.bind, Except.map, bind, Functor.map, pure]
  all_goals decide

/-- C10 amended: every kind's type validator returns null on `null` and
`undefined`; consequently, for builder-shaped fields (no transforms, no
preprocess, nullability flags unset), a required field with a
null/undefined value yields exactly the REQUIRED error — never
INVALID_TYPE — and an optional field with a null/undefined value passes the
type check and contributes nothing. -/
theorem type_validator_nullish_amended :
    (∀ (t : FieldType) (ctx : ValidatorContext),
        getTypeValidator t .nullV ctx = none ∧ getTypeValidator t .undef ctx = none) ∧
    (∀ (fd : FieldDefinition) (v : Value) (ctx : ValidatorContext),
        builderShape fd → fd.required = true → (v = .undef ∨ v = .nullV) →
        validateField fd v ctx = .ok [requiredErrorFor ctx.path]) ∧
    (∀ (fd : FieldDefinition) (v : Value) (ctx : ValidatorContext),
        builderShape fd → fd.required = false → (v = .undef ∨ v = .nullV) →
        validateField fd v ctx = .ok []) := by
  refine ⟨fun t ctx => ⟨getTypeValidator_null t ctx, getTypeValidator_undef t ctx⟩, ?_, ?_⟩
  · intro fd v ctx hshape hreq hv
    obtain ⟨htr, hpre, hnb, hns⟩ := hshape
    have hpv : processValue fd v = v := by
      simp [processValue, htr, hpre]
    rw [validateField.eq_def]
    have hne : nullishEarlyReturn fd v = false := by
      rcases hv with h | h <;> subst h <;> simp [nullishEarlyReturn, hnb, hns]
    rw [hne]
    simp only [Bool.false_eq_true, if_false, hpv]
    rcases hv with h | h <;> subst h
    · rw [getTypeValidator_undef]
      simp [hreq, isMissingForRequired, isUndefV, isNullValue, hns, hnb, getValidator,
        requiredValidator, withSyncPath, requiredErrorFor, createError]
    · rw [getTypeValidator_null]
      simp [hreq, isMissingForRequired, isUndefV, isNullValue, hns, hnb, getValidator,
        requiredValidator, withSyncPath, requiredErrorFor, createError]
  · intro fd v ctx hshape hreq hv
    obtain ⟨htr, hpre, hnb, hns⟩ := hshape
    have hpv : processValue fd v = v := by
      simp [processValue, htr, hpre]
    rw [validateField.eq_def]
    by_cases hne : nullishEarlyReturn fd v = true
    · rw [if_pos hne]
    · rw [if_neg hne]
      simp only [hpv]
      rcases hv with h | h <;> subst h
      · rw [getTypeValidator_undef]
        simp [hreq, valueIsEmpty]
      · rw [getTypeValidator_null]
        simp [hreq, valueIsEmpty]

/-- C10 amended witness: a required builder-shaped string field reports
REQUIRED for undefined, an optional number field reports nothing for
null. -/
theorem type_validator_nullish_amended_witness :
    builderShape strRequiredField ∧ strRequiredField.required = true ∧
    validateField strRequiredField Value.undef ctx0 = .ok [requiredErrorFor "a"] ∧
    validateField optionalNumberField Value.nullV ctx0 = .ok [] := by
  refine ⟨⟨rfl, rfl, rfl, rfl⟩, rfl, ?_, ?_⟩
  · exact type_validator_nullish_amended.2.1 strRequiredField Value.undef ctx0
      ⟨rfl, rfl, rfl, rfl⟩ rfl (Or.inl rfl)
  · exact type_validator_nullish_amended.2.2 optionalNumberField Value.nullV ctx0
      ⟨rfl, rfl, rfl, rfl⟩ rfl (Or.inr rfl)

theorem applyErrorMap_noMap (opts : ValidationOptions) (hm : opts.errorMap = none)
    (e : ValidationError) : applyErrorMap opts e = e := by
  simp [applyErrorMap, hm]

/-- With `abortEarly` requested and no `errorMap`, bucketing a field's error
list that contains a hard error, starting from an empty hard bucket, stops
with exactly one hard error. -/
theorem bucketErrors_abort_hard (opts : ValidationOptions) (hm : opts.errorMap = none)
    (hab : opts.abortEarly = some true) :
    ∀ (errs soft : List ValidationError), (∃ e ∈ errs, e.severity = .hard) →
      (bucketErrors opts errs [] soft).1.length = 1 ∧
      (bucketErrors opts errs [] soft).2.2 = true
  | [], soft, hex => by
      obtain ⟨e, he, _⟩ := hex
      cases he
  | e :: rest, soft, hex => by
      rw [bucketErrors]
      rw [applyErrorMap_noMap opts hm]
      by_cases hsev : e.severity = Severity.soft
      · rw [if_pos hsev]
        refine bucketErrors_abort_hard opts hm hab rest (soft ++ [e]) ?_
        obtain ⟨x, hx, hxs⟩ := hex
        rcases List.mem_cons.mp hx with hx1 | hx2
        · subst hx1
          rw [hxs] at hsev
          exact Severity.noConfusion hsev
        · exact ⟨x, hx2, hxs⟩
      · rw [if_neg hsev]
        rw [hab]
        simp

/-- Without `abortEarly` and without an `errorMap`, bucketing is a stable
partition appended to the accumulators. -/
theorem bucketErrors_noAbort (opts : ValidationOptions) (hm : opts.errorMap = none)
    (hab : opts.abortEarly.getD false = false) :
    ∀ (errs hard soft : List ValidationError),
      bucketErrors opts errs hard soft =
        (hard ++ errs.filter (fun e => e.severity == Severity.hard),
         soft ++ errs.filter (fun e => e.severity == Severity.soft), false)
  | [], hard, soft => by
      rw [bucketErrors]
      simp
  | e :: rest, hard, soft => by
      rw [bucketErrors]
      rw [applyErrorMap_noMap opts hm]
      by_cases hsev : e.severity = Severity.soft
      · rw [if_pos hsev]
        rw [bucketErrors_noAbort opts hm hab rest hard (soft ++ [e])]
        have hnh : (e.severity == Severity.hard) = false := by
          rw [hsev]
          rfl
        have hns : (e.severity == Severity.soft) = true := by
          rw [hsev]
          rfl
        simp [List.filter_cons, hnh, hns]
      · rw [if_neg hsev]
        rw [if_neg (by rw [hab]; exact Bool.false_ne_true)]
        rw [bucketErrors_noAbort opts hm hab rest (hard ++ [e]) soft]
        have hsh : e.severity = Severity.hard := severity_not_soft hsev
        have hnh : (e.severity == Severity.hard) = true := by
          rw [hsh]
          rfl
        have hns : (e.severity == Severity.soft) = false := by
          rw [hsh]
          rfl
        simp [List.filter_cons, hnh, hns]

theorem filter_hard_pos {l : List ValidationError} (h : ∃ e ∈ l, e.severity = .hard) :
    1 ≤ (l.filter (fun e => e.severity == Severity.hard)).length := by
  obtain ⟨e, he, hs⟩ := h
  have : e ∈ l.filter (fun e => e.severity == Severity.hard) := by
    rw [List.mem_filter]
    exact ⟨he, by rw [hs]; rfl⟩
  have hne : l.filter (fun e => e.severity == Severity.hard) ≠ [] := by
    intro hc
    rw [hc] at this
    cases this
  have := List.length_pos.mpr hne
  omega

/-- One step of the schema walk: when the field's validation result is known,
`validateFieldsGo` on a cons is the bucketing dispatch. -/
theorem validateFieldsGo_cons (opts : ValidationOptions) (root : Value)
    (data : List (String × Value)) (bp n : String) (fd : FieldDefinition)
    (rest : List (String × FieldDefinition)) (hard soft errs : List ValidationError)
    (hv : validateField fd (jsLookup data n)
      ⟨if bp = "" then n else bp ++ "." ++ n, root, some (Value.obj data)⟩ = .ok errs) :
    validateFieldsGo opts root data bp ((n, fd) :: rest) hard soft =
      match bucketErrors opts errs hard soft with
      | (h2, s2, true) => .ok (h2, s2, true)
      | (h2, s2, false) => validateFieldsGo opts root data bp rest h2 s2 := by
  rw [validateFieldsGo.eq_def]
  simp only [hv, Bind.bind, Except.bind]

theorem validateFieldsGo_nil (opts : ValidationOptions) (root : Value)
    (data : List (String × Value)) (bp : String) (hard soft : List ValidationError) :
    validateFieldsGo opts root data bp [] hard soft = .ok (hard, soft, false) := by
  rw [validateFieldsGo.eq_def]

/-- C4: for a schema of three fields that each produce a hard error on the
input, `validate` with `abortEarly` returns exactly one hard error, while
`validate` without options returns at least two. -/
theorem abort_early_first_hard_error
    (S : SchemaDefinition) (D : List (String × Value))
    (n1 n2 n3 : String) (f1 f2 f3 : FieldDefinition)
    (e1 e2 e3 : List ValidationError)
    (hfields : S.fields = [(n1, f1), (n2, f2), (n3, f3)])
    (h1 : validateField f1 (jsLookup D n1) (topCtx D n1) = .ok e1)
    (h2 : validateField f2 (jsLookup D n2) (topCtx D n2) = .ok e2)
    (h3 : validateField f3 (jsLookup D n3) (topCtx D n3) = .ok e3)
    (hh1 : ∃ e ∈ e1, e.severity = .hard)
    (hh2 : ∃ e ∈ e2, e.severity = .hard)
    (hh3 : ∃ e ∈ e3, e.severity = .hard) :
    (∃ r, validate S D { abortEarly := some true } = .ok r ∧ r.hardErrors.length = 1) ∧
    (∃ r, validate S D noOptions = .ok r ∧ 2 ≤ r.hardErrors.length) := by
  have h1x : validateField f1 (jsLookup D n1)
      ⟨if ("" : String) = "" then n1 else "" ++ "." ++ n1, Value.obj D,
        some (Value.obj D)⟩ = .ok e1 := h1
  have h2x : validateField f2 (jsLookup D n2)
      ⟨if ("" : String) = "" then n2 else "" ++ "." ++ n2, Value.obj D,
        some (Value.obj D)⟩ = .ok e2 := h2
  have h3x : validateField f3 (jsLookup D n3)
      ⟨if ("" : String) = "" then n3 else "" ++ "." ++ n3, Value.obj D,
        some (Value.obj D)⟩ = .ok e3 := h3
  constructor
  · have step1 := validateFieldsGo_cons { abortEarly := some true } (Value.obj D) D ""
      n1 f1 [(n2, f2), (n3, f3)] [] [] e1 h1x
    obtain ⟨hlen, habort⟩ := bucketErrors_abort_hard { abortEarly := some true } rfl rfl e1 [] hh1
    rcases hb : bucketErrors { abortEarly := some true } e1 [] [] with ⟨hd, sf, ab⟩
    rw [hb] at hlen habort step1
    simp only [] at hlen habort
    subst habort
    simp only [] at step1
    refine ⟨buildValidationResult hd sf { abortEarly := some true }, ?_, ?_⟩
    · rw [validate, validateSchemaFields.eq_def, hfields]
      simp only [Option.getD]
      rw [step1]
      rfl
    · simpa [buildValidationResult] using hlen
  · have step1 := validateFieldsGo_cons noOptions (Value.obj D) D ""
      n1 f1 [(n2, f2), (n3, f3)] [] [] e1 h1x
    rw [bucketErrors_noAbort noOptions rfl rfl e1 [] []] at step1
    simp only [List.nil_append] at step1
    have step2 := validateFieldsGo_cons noOptions (Value.obj D) D ""
      n2 f2 [(n3, f3)]
      (e1.filter (fun e => e.severity == Severity.hard))
      (e1.filter (fun e => e.severity == Severity.soft)) e2 h2x
    rw [bucketErrors_noAbort noOptions rfl rfl e2 _ _] at step2
    simp only [] at step2
    have step3 := validateFieldsGo_cons noOptions (Value.obj D) D ""
      n3 f3 []
      (e1.filter (fun e => e.severity == Severity.hard) ++
        e2.filter (fun e => e.severity == Severity.hard))
      (e1.filter (fun e => e.severity == Severity.soft) ++
        e2.filter (fun e => e.severity == Severity.soft)) e3 h3x
    rw [bucketErrors_noAbort noOptions rfl rfl e3 _ _] at step3
    simp only [] at step3
    refine ⟨buildValidationResult
      (e1.filter (fun e => e.severity == Severity.hard) ++
        e2.filter (fun e => e.severity == Severity.hard) ++
        e3.filter (fun e => e.severity == Severity.hard))
      (e1.filter (fun e => e.severity == Severity.soft) ++
        e2.filter (fun e => e.severity == Severity.soft) ++
        e3.filter (fun e => e.severity == Severity.soft))
      noOptions, ?_, ?_⟩
    · rw [validate, validateSchemaFields.eq_def, hfields]
      simp only [Option.getD]
      rw [step1, step2, step3, validateFieldsGo_nil]
      rfl
    · simp only [buildValidationResult, List.length_append]
      have q1 := filter_hard_pos hh1
      have q2 := filter_hard_pos hh2
      omega

/-- C4 witness: the three-field `min 100` schema on failing numeric input. -/
theorem abort_early_first_hard_error_witness :
    (∃ r, validate abortDemoSchema abortDemoData { abortEarly := some true } = .ok r ∧
      r.hardErrors.length = 1) ∧
    (∃ r, validate abortDemoSchema abortDemoData noOptions = .ok r ∧
      2 ≤ r.hardErrors.length) := by
  have e1eq : validateField (numRequiredMin 100) (jsLookup abortDemoData "a")
      (topCtx abortDemoData "a") =
      .ok [{ field := "a", path := some ["a"], code := "MIN_VALUE",
             message := "Value must be at least 100", severity := .hard,
             received := none, expected := none }] := by
    simp [validateField.eq_def, validateFieldRest.eq_def, validateItemsGo.eq_def, runRules,
      nullishEarlyReturn, processValue, getTypeValidator, typeValidatorNumber, isPresentV,
      isUndefV, isNullValue, jsTypeof, getValidator, requiredValidator, minValidator,
      isMissingForRequired, valueIsEmpty, withSyncPath, jsSplitDotFiltered, jsSplitDot,
      mergeRuleParams, pSoft, pMessage, jsOrMessage, topCtx, createError, jsLookup,
      abortDemoData, numRequiredMin, minRule, mkField,
      Except.pure, Except.bind, Except.map, bind, Functor.map, pure]
    all_goals decide
  have e2eq : validateField (numRequiredMin 100) (jsLookup abortDemoData "b")
      (topCtx abortDemoData "b") =
      .ok [{ field := "b", path := some ["b"], code := "MIN_VALUE",
             message := "Value must be at least 100", severity := .hard,
             received := none, expected := none }] := by
    simp [validateField.eq_def, validateFieldRest.eq_def, validateItemsGo.eq_def, runRules,
      nullishEarlyReturn, processValue, getTypeValidator, typeValidatorNumber, isPresentV,
      isUndefV, isNullValue, jsTypeof, getValidator, requiredValidator, minValidator,
      isMissingForRequired, valueIsEmpty, withSyncPath, jsSplitDotFiltered, jsSplitDot,
      mergeRuleParams, pSoft, pMessage, jsOrMessage, topCtx, createError, jsLookup,
      abortDemoData, numRequiredMin, minRule, mkField,
      Except.pure, Except.bind, Except.map, bind, Functor.map, pure]
    all_goals decide
  have e3eq : validateField (numRequiredMin 100) (jsLookup abortDemoData "c")
      (topCtx abortDemoData "c") =
      .ok [{ field := "c", path := some ["c"], code := "MIN_VALUE",
             message := "Value must be at least 100", severity := .hard,
             received := none, expected := none }] := by
    simp [validateField.eq_def, validateFieldRest.eq_def, validateItemsGo.eq_def, runRules,
      nullishEarlyReturn, processValue, getTypeValidator, typeValidatorNumber, isPresentV,
      isUndefV, isNullValue, jsTypeof, getValidator, requiredValidator, minValidator,
      isMissingForRequired, valueIsEmpty, withSyncPath, jsSplitDotFiltered, jsSplitDot,
      mergeRuleParams, pSoft, pMessage, jsOrMessage, topCtx, createError, jsLookup,
      abortDemoData, numRequiredMin, minRule, mkField,
      Except.pure, Except.bind, Except.map, bind, Functor.map, pure]
    all_goals decide
  exact abort_early_first_hard_error abortDemoSchema abortDemoData "a" "b" "c"
    (numRequiredMin 100) (numRequiredMin 100) (numRequiredMin 100) _ _ _ rfl
    e1eq e2eq e3eq
    ⟨_, List.mem_singleton.mpr rfl, rfl⟩
    ⟨_, List.mem_singleton.mpr rfl, rfl⟩
    ⟨_, List.mem_singleton.mpr rfl, rfl⟩

/-! ## Composition helpers (claim C8) -/

theorem validateField_optional_undef (fd : FieldDefinition) (ctx : ValidatorContext)
    (ht : fd.transforms = []) (hp : fd.preprocess = none) (hr : fd.required = false) :
    validateField fd .undef ctx = .ok [] := by
  rw [validateField.eq_def]
  by_cases hne : nullishEarlyReturn fd .undef = true
  · rw [if_pos hne]
  · rw [if_neg hne]
    simp [processValue, ht, hp, hr, getTypeValidator_undef, valueIsEmpty]

theorem validateField_required_undef (fd : FieldDefinition) (ctx : ValidatorContext)
    (ht : fd.transforms = []) (hp : fd.preprocess = none) (hn : fd.nullish = false)
    (hr : fd.required = true) :
    validateField fd .undef ctx = .ok [requiredErrorFor ctx.path] := by
  rw [validateField.eq_def]
  have hne : nullishEarlyReturn fd .undef = false := by
    simp [nullishEarlyReturn, hn]
  rw [hne]
  simp [processValue, ht, hp, hr, getTypeValidator_undef, isMissingForRequired, isUndefV,
    isNullValue, hn, getValidator, requiredValidator, withSyncPath, requiredErrorFor,
    createError]

theorem validateFieldRest_clean (fd : FieldDefinition) (pv : Value) (ctx : ValidatorContext)
    (hrules : runRules pv ctx fd.rules = .ok []) (hsch : fd.schema = none)
    (hits : fd.items = none) :
    validateFieldRest fd pv ctx = .ok [] := by
  rw [validateFieldRest.eq_def]
  rw [hrules]
  cases hft : fd.type
  case object =>
    simp only [Bind.bind, Except.bind, pure, Except.pure]
    split
    · rename_i sfs hsome
      rw [hsch] at hsome
      exact Option.noConfusion hsome
    · rfl
  case array =>
    simp only [Bind.bind, Except.bind, pure, Except.pure]
    split
    · rename_i idef hsome
      rw [hits] at hsome
      exact Option.noConfusion hsome
    · rfl
  all_goals simp [Bind.bind, Except.bind, pure, Except.pure]

theorem validateField_accepts (fd : FieldDefinition) (v : Value) (ctx : ValidatorContext)
    (ht : fd.transforms = []) (hp : fd.preprocess = none)
    (hpres : isPresentV v = true)
    (htype : getTypeValidator fd.type v ctx = none)
    (hmiss : isMissingForRequired fd v = false)
    (hrules : runRules v ctx fd.rules = .ok [])
    (hsch : fd.schema = none) (hits : fd.items = none) :
    validateField fd v ctx = .ok [] := by
  have hrest := validateFieldRest_clean fd v ctx hrules hsch hits
  rw [validateField.eq_def]
  have hne : nullishEarlyReturn fd v = false := by
    cases v <;> simp_all [nullishEarlyReturn, isPresentV, isUndefV, isNullValue]
  rw [hne]
  have hpv : processValue fd v = v := by simp [processValue, ht, hp]
  simp only [Bool.false_eq_true, if_false, hpv, htype]
  cases hreq : fd.required
  · cases hve : valueIsEmpty v
    · simp [hve, hrest]
    · simp [hve]
  · simp [hmiss, hrest]

theorem bucketErrors_allHard (errs hard soft : List ValidationError)
    (h : ∀ e ∈ errs, e.severity = .hard) :
    bucketErrors noOptions errs hard soft = (hard ++ errs, soft, false) := by
  rw [bucketErrors_noAbort noOptions rfl rfl]
  have h1 : errs.filter (fun e => e.severity == Severity.hard) = errs :=
    List.filter_eq_self.mpr (fun e he => by rw [h e he]; rfl)
  have h2 : errs.filter (fun e => e.severity == Severity.soft) = [] := by
    rw [List.filter_eq_nil_iff]
    intro e he
    rw [h e he]
    decide
  rw [h1, h2]
  simp

/-- The top-level schema walk when every field's error list is known and
all-hard: the lists are appended in field order and the walk never aborts. -/
theorem validateFieldsGo_each (root : Value) (data : List (String × Value))
    (E : String × FieldDefinition → List ValidationError) :
    ∀ (fields : List (String × FieldDefinition)) (hard soft : List ValidationError),
      (∀ p ∈ fields,
        validateField p.2 (jsLookup data p.1) ⟨p.1, root, some (Value.obj data)⟩ =
          .ok (E p) ∧ ∀ e ∈ E p, e.severity = .hard) →
      validateFieldsGo noOptions root data "" fields hard soft =
        .ok (hard ++ (fields.map E).flatten, soft, false)
  | [], hard, soft, _ => by
      rw [validateFieldsGo_nil]
      simp
  | (n, fd) :: rest, hard, soft, h => by
      obtain ⟨hv, hsev⟩ := h (n, fd) (List.mem_cons_self _ _)
      have hv2 : validateField fd (jsLookup data n)
          ⟨if ("" : String) = "" then n else "" ++ "." ++ n, root,
            some (Value.obj data)⟩ = .ok (E (n, fd)) := hv
      rw [validateFieldsGo_cons noOptions root data "" n fd rest hard soft (E (n, fd)) hv2]
      rw [bucketErrors_allHard _ _ _ hsev]
      simp only []
      rw [validateFieldsGo_each root data E rest (hard ++ E (n, fd)) soft
        (fun p hp => h p (List.mem_cons_of_mem _ hp))]
      simp [List.append_assoc]

theorem flatten_if_count (x : String) (err : ValidationError) :
    ∀ (fields : List (String × FieldDefinition)),
      (fields.map (fun p => if p.1 == x then [err] else [])).flatten =
        List.replicate ((fields.map Prod.fst).count x) err
  | [] => by simp
  | p :: rest => by
      have ih := flatten_if_count x err rest
      simp only [beq_iff_eq] at ih
      cases hx : p.1 == x
      · have hx2 : ¬ p.1 = x := ne_of_beq_false hx
        simp [List.count_cons, hx, hx2, ih]
      · have hx2 : p.1 = x := eq_of_beq hx
        simp [List.count_cons, hx, hx2, ih, List.replicate_succ]

theorem jsLookup_single_ne (x n : String) (v : Value) (h : n ≠ x) :
    jsLookup [(x, v)] n = .undef := by
  have hx : ((x, v).1 == n) = false := beq_eq_false_iff_ne.mpr (Ne.symm h)
  simp [jsLookup, List.find?, hx]

theorem jsLookup_single_eq (x : String) (v : Value) : jsLookup [(x, v)] x = v := by
  simp [jsLookup, List.find?]

theorem map_fst_partialFields (l : List (String × FieldDefinition)) :
    (l.map (fun p => (p.1, { p.2 with required := false }))).map Prod.fst =
      l.map Prod.fst := by
  induction l with
  | nil => rfl
  | cons p rest ih => simp [ih]

theorem map_fst_required (keys : List String) (l : List (String × FieldDefinition)) :
    (l.map (fun p =>
      if keys.contains p.1 then (p.1, { p.2 with required := true }) else p)).map Prod.fst =
      l.map Prod.fst := by
  induction l with
  | nil => rfl
  | cons p rest ih =>
      cases hk : keys.contains p.1
      · simp only [List.map_cons, hk, Bool.false_eq_true, if_false, ih]
      · simp only [List.map_cons, hk, eq_self_iff_true, if_true, ih]

theorem partial_preserves (l : List (String × FieldDefinition)) :
    (l.map (fun p => (p.1, { p.2 with required := false }))).map
        (fun p => (p.1, p.2.type, p.2.rules)) =
      l.map (fun p => (p.1, p.2.type, p.2.rules)) := by
  induction l with
  | nil => rfl
  | cons p rest ih => simp [ih]

/-- C8: `partial` clears every `required` flag keeping names, types and rules;
the partial schema accepts the empty object; `required (partial S) [x]` (for a
schema with exactly one field named `x`) rejects the empty object with the
single hard `REQUIRED` error for `x` and accepts `{x: v}` for a `v` passing
`x`'s type check and rules; fields not named in the key list are untouched.
The builder never emits transforms, preprocess or nullability flags, which the
`builderShape` hypothesis records. -/
theorem partial_required_composition
    (S : SchemaDefinition) (x : String) (v : Value) (fdx : FieldDefinition)
    (hshape : ∀ p ∈ S.fields, builderShape p.2)
    (hcount : (S.fields.map Prod.fst).count x = 1)
    (huniq : ∀ q ∈ S.fields, q.1 = x → q.2 = fdx)
    (hpres : isPresentV v = true)
    (htype : getTypeValidator fdx.type v
      ⟨x, Value.obj [(x, v)], some (Value.obj [(x, v)])⟩ = none)
    (hmiss : isMissingForRequired fdx v = false)
    (hrules : runRules v ⟨x, Value.obj [(x, v)], some (Value.obj [(x, v)])⟩ fdx.rules = .ok [])
    (hsch : fdx.schema = none) (hits : fdx.items = none) :
    (∀ p ∈ (partialSchema S).fields, p.2.required = false) ∧
    ((partialSchema S).fields.map (fun p => (p.1, p.2.type, p.2.rules)) =
      S.fields.map (fun p => (p.1, p.2.type, p.2.rules))) ∧
    (∃ r, validate (partialSchema S) [] noOptions = .ok r ∧ r.valid = true) ∧
    (∃ r, validate (required (partialSchema S) [x]) [] noOptions = .ok r ∧
      r.valid = false ∧ r.hardErrors = [requiredErrorFor x]) ∧
    (∀ p ∈ (partialSchema S).fields, p.1 ≠ x →
      p ∈ (required (partialSchema S) [x]).fields) ∧
    (∃ r, validate (required (partialSchema S) [x]) [(x, v)] noOptions = .ok r ∧
      r.valid = true) := by
  have hfields : (required (partialSchema S) [x]).fields =
      S.fields.map (fun q =>
        if [x].contains q.1 then (q.1, { { q.2 with required := false } with required := true })
        else (q.1, { q.2 with required := false })) := by
    rw [required, partialSchema]
    simp only [List.map_map]
    rfl
  have hcontains : ∀ n : String, ([x].contains n) = (n == x) := by
    intro n
    cases h : n == x <;> simp [List.contains, List.elem, h]
  refine ⟨?_, ?_, ?_, ?_, ?_, ?_⟩
  · intro p hp
    obtain ⟨q, hq, hpq⟩ := List.mem_map.mp hp
    subst hpq
    rfl
  · exact partial_preserves S.fields
  · have hcond : ∀ p ∈ (partialSchema S).fields,
        validateField p.2 (jsLookup [] p.1) ⟨p.1, Value.obj [], some (Value.obj [])⟩ =
          .ok ((fun _ => ([] : List ValidationError)) p) ∧
        ∀ e ∈ (fun _ => ([] : List ValidationError)) p, e.severity = .hard := by
      intro p hp
      obtain ⟨q, hq, hpq⟩ := List.mem_map.mp hp
      obtain ⟨ht, hpre, _, _⟩ := hshape q hq
      subst hpq
      exact ⟨validateField_optional_undef _ _ ht hpre rfl, fun e he => by cases he⟩
    have walk := validateFieldsGo_each (Value.obj []) [] (fun _ => [])
      (partialSchema S).fields [] [] hcond
    rw [show (((partialSchema S).fields.map
        (fun _ => ([] : List ValidationError))).flatten) = [] from by simp] at walk
    refine ⟨buildValidationResult [] [] noOptions, ?_, rfl⟩
    rw [validate, validateSchemaFields.eq_def]
    simp only [Option.getD]
    rw [walk]
    rfl
  · have hcond : ∀ p ∈ (required (partialSchema S) [x]).fields,
        validateField p.2 (jsLookup [] p.1) ⟨p.1, Value.obj [], some (Value.obj [])⟩ =
          .ok ((fun p => if p.1 == x then [requiredErrorFor x] else []) p) ∧
        ∀ e ∈ (fun p => if p.1 == x then [requiredErrorFor x] else []) p,
          e.severity = .hard := by
      intro p hp
      rw [hfields] at hp
      obtain ⟨q, hq, hpq⟩ := List.mem_map.mp hp
      obtain ⟨ht, hpre, hnul, hnis⟩ := hshape q hq
      rw [hcontains q.1] at hpq
      cases hx : q.1 == x
      · rw [hx] at hpq
        simp only [Bool.false_eq_true, if_false] at hpq
        subst hpq
        show (validateField { q.2 with required := false } (jsLookup [] q.1)
            ⟨q.1, Value.obj [], some (Value.obj [])⟩ =
            .ok (if q.1 == x then [requiredErrorFor x] else [])) ∧
          ∀ e ∈ (if q.1 == x then [requiredErrorFor x] else []), e.severity = .hard
        rw [hx]
        simp only [Bool.false_eq_true, if_false]
        exact ⟨validateField_optional_undef _ _ ht hpre rfl, fun e he => by cases he⟩
      · rw [hx] at hpq
        simp only [eq_self_iff_true, if_true] at hpq
        subst hpq
        have hq1 : q.1 = x := eq_of_beq hx
        show (validateField { { q.2 with required := false } with required := true }
            (jsLookup [] q.1) ⟨q.1, Value.obj [], some (Value.obj [])⟩ =
            .ok (if q.1 == x then [requiredErrorFor x] else [])) ∧
          ∀ e ∈ (if q.1 == x then [requiredErrorFor x] else []), e.severity = .hard
        rw [hx]
        simp only [eq_self_iff_true, if_true]
        rw [hq1]
        refine ⟨?_, ?_⟩
        · exact validateField_required_undef _ _ ht hpre hnis rfl
        · intro e he
          rw [List.mem_singleton] at he
          subst he
          rfl
    have walk := validateFieldsGo_each (Value.obj []) []
      (fun p => if p.1 == x then [requiredErrorFor x] else [])
      (required (partialSchema S) [x]).fields [] [] hcond
    have hnames : ((required (partialSchema S) [x]).fields.map Prod.fst) =
        S.fields.map Prod.fst := by
      rw [required, partialSchema]
      exact (map_fst_required [x] _).trans (map_fst_partialFields _)
    have hflat := flatten_if_count x (requiredErrorFor x)
      (required (partialSchema S) [x]).fields
    rw [hnames, hcount] at hflat
    rw [hflat] at walk
    refine ⟨buildValidationResult [requiredErrorFor x] [] noOptions, ?_, rfl, rfl⟩
    rw [validate, validateSchemaFields.eq_def]
    simp only [Option.getD]
    rw [walk]
    rfl
  · intro p hp hne
    rw [required]
    refine List.mem_map.mpr ⟨p, hp, ?_⟩
    rw [hcontains]
    have hx : (p.1 == x) = false := beq_eq_false_iff_ne.mpr hne
    simp [hx]
  · have hcond : ∀ p ∈ (required (partialSchema S) [x]).fields,
        validateField p.2 (jsLookup [(x, v)] p.1)
          ⟨p.1, Value.obj [(x, v)], some (Value.obj [(x, v)])⟩ =
          .ok ((fun _ => ([] : List ValidationError)) p) ∧
        ∀ e ∈ (fun _ => ([] : List ValidationError)) p, e.severity = .hard := by
      intro p hp
      rw [hfields] at hp
      obtain ⟨q, hq, hpq⟩ := List.mem_map.mp hp
      obtain ⟨ht, hpre, hnul, hnis⟩ := hshape q hq
      rw [hcontains q.1] at hpq
      cases hx : q.1 == x
      · rw [hx] at hpq
        simp only [Bool.false_eq_true, if_false] at hpq
        subst hpq
        have hq1 : q.1 ≠ x := ne_of_beq_false hx
        show validateField { q.2 with required := false } (jsLookup [(x, v)] q.1)
            ⟨q.1, Value.obj [(x, v)], some (Value.obj [(x, v)])⟩ = .ok [] ∧
          ∀ e ∈ ([] : List ValidationError), e.severity = .hard
        rw [jsLookup_single_ne x q.1 v hq1]
        exact ⟨validateField_optional_undef _ _ ht hpre rfl, fun e he => by cases he⟩
      · rw [hx] at hpq
        simp only [eq_self_iff_true, if_true] at hpq
        subst hpq
        have hq1 : q.1 = x := eq_of_beq hx
        have hq2 : q.2 = fdx := huniq q hq hq1
        show validateField { { q.2 with required := false } with required := true }
            (jsLookup [(x, v)] q.1)
            ⟨q.1, Value.obj [(x, v)], some (Value.obj [(x, v)])⟩ = .ok [] ∧
          ∀ e ∈ ([] : List ValidationError), e.severity = .hard
        rw [hq1, jsLookup_single_eq, hq2]
        refine ⟨?_, fun e he => by cases he⟩
        rw [hq2] at ht hpre
        exact validateField_accepts
          { { fdx with required := false } with required := true } v
          ⟨x, Value.obj [(x, v)], some (Value.obj [(x, v)])⟩
          ht hpre hpres htype hmiss hrules hsch hits
    have walk := validateFieldsGo_each (Value.obj [(x, v)]) [(x, v)] (fun _ => [])
      (required (partialSchema S) [x]).fields [] [] hcond
    rw [show (((required (partialSchema S) [x]).fields.map
        (fun _ => ([] : List ValidationError))).flatten) = [] from by simp] at walk
    refine ⟨buildValidationResult [] [] noOptions, ?_, rfl⟩
    rw [validate, validateSchemaFields.eq_def]
    simp only [Option.getD]
    rw [walk]
    rfl

/-- C8 witness: the two-field demo schema, flipping only `"x"`. -/
theorem partial_required_composition_witness :
    (∃ r, validate (partialSchema composeDemoSchema) [] noOptions = .ok r ∧
      r.valid = true) ∧
    (∃ r, validate (required (partialSchema composeDemoSchema) ["x"]) [] noOptions = .ok r ∧
      r.valid = false ∧ r.hardErrors = [requiredErrorFor "x"]) ∧
    (∃ r, validate (required (partialSchema composeDemoSchema) ["x"])
        [("x", Value.num 25)] noOptions = .ok r ∧ r.valid = true) := by
  have h := partial_required_composition composeDemoSchema "x" (Value.num 25)
    (numRequiredMin 18)
    (by
      intro p hp
      rcases List.mem_cons.mp hp with h1 | h1
      · subst h1
        exact ⟨rfl, rfl, rfl, rfl⟩
      · rcases List.mem_cons.mp h1 with h2 | h2
        · subst h2
          exact ⟨rfl, rfl, rfl, rfl⟩
        · cases h2)
    rfl
    (by
      intro q hq hq1
      rcases List.mem_cons.mp hq with h1 | h1
      · subst h1
        exact absurd hq1 (by decide)
      · rcases List.mem_cons.mp h1 with h2 | h2
        · subst h2
          rfl
        · cases h2)
    rfl rfl rfl rfl rfl rfl
  exact ⟨h.2.2.1, h.2.2.2.1, h.2.2.2.2.2⟩

/-- C9: a callback-free schema survives the interchange round-trip
(encode after decode restores the very same `SchemaDefinition`), so the
decoded schema validates every input under every option exactly like the
original: same validity, same errors, same order. -/
theorem schema_roundtrip_preserves_validation
    (S : SchemaDefinition) (h : callbackFreeSchema S = true) :
    ∃ S2, decodeSchema (encodeSchema S) = some S2 ∧
      ∀ (D : List (String × Value)) (o : ValidationOptions),
        validate S2 D o = validate S D o :=
  ⟨S, decodeSchema_encodeSchema S h, fun _ _ => rfl⟩

/-- C9 witness: the one-field email demo schema is callback-free and
round-trips. -/
theorem schema_roundtrip_preserves_validation_witness :
    callbackFreeSchema roundtripDemoSchema = true ∧
    ∃ S2, decodeSchema (encodeSchema roundtripDemoSchema) = some S2 ∧
      ∀ (D : List (String × Value)) (o : ValidationOptions),
        validate S2 D o = validate roundtripDemoSchema D o := by
  have hcf : callbackFreeSchema roundtripDemoSchema = true := by
    simp [callbackFreeSchema, callbackFreeFieldList.eq_def, callbackFreeField.eq_def,
      callbackFreeFieldListOpt.eq_def, callbackFreeFieldOpt.eq_def, callbackFreeRule,
      callbackFreeParams, roundtripDemoSchema, mkField, minRule]
  exact ⟨hcf, schema_roundtrip_preserves_validation roundtripDemoSchema hcf⟩

/-- C5: an async rule whose validator has not settled when the timeout timer
fires is reported as failed with a single `ASYNC_VALIDATION_ERROR` at the
rule's declared severity; concretely, the `refineAsync` rule with
`timeoutMs 50` and a validator settling at 100 ms yields exactly one hard
`ASYNC_VALIDATION_ERROR`. -/
theorem async_timeout_reports_async_validation_error
    (f : Value → AsyncBehavior) (v : Value) (ctx : ValidatorContext)
    (msg : Option String) (soft : Bool) (timeoutMs t : Nat) (o : RefineOutcome)
    (hf : f v = .settles t o) (hto : timeoutMs ≤ t) :
    (executeAsyncValidator f v ctx msg soft timeoutMs =
      some { field := ctx.path
             path := some (jsSplitDot ctx.path)
             code := "ASYNC_VALIDATION_ERROR"
             message := "Async validation timed out after " ++ toString timeoutMs ++ "ms"
             severity := if soft then .soft else .hard
             received := some v
             expected := none }) ∧
    (∃ r, validateAsync usernameDemoSchema usernameDemoData = .ok r ∧
      r.valid = false ∧ r.softErrors = [] ∧
      r.hardErrors = [{ field := "username"
                        path := some ["username"]
                        code := "ASYNC_VALIDATION_ERROR"
                        message := "Async validation timed out after 50ms"
                        severity := .hard
                        received := some (.str "bob")
                        expected := none }]) := by
  constructor
  · rw [executeAsyncValidator]
    rw [hf]
    simp only [if_neg (not_lt.mpr hto)]
  · refine ⟨{ valid := false
              hardErrors := [{ field := "username"
                               path := some ["username"]
                               code := "ASYNC_VALIDATION_ERROR"
                               message := "Async validation timed out after 50ms"
                               severity := .hard
                               received := some (.str "bob")
                               expected := none }]
              softErrors := []
              errorsByField := none }, ?_, rfl, rfl, rfl⟩
    have hsp : jsSplitDot "username" = ["username"] := rfl
    have hts : "Async validation timed out after " ++ toString 50 ++ "ms" =
        "Async validation timed out after 50ms" := rfl
    rw [validateAsync, validateSchemaAsyncFields.eq_def]
    simp only [Option.getD]
    rw [validateFieldsAsyncGo.eq_def]
    simp [validateFieldsAsyncGo.eq_def, validateFieldAsync.eq_def,
      validateFieldAsyncRest.eq_def, runRulesAsync,
      usernameDemoSchema, usernameDemoData, mkField, refineAsyncRule, slowRefineValidator,
      executeAsyncValidator, effectiveTimeout, getTypeValidator, typeValidatorString,
      isPresentV, isUndefV, isNullValue, jsTypeof, valueIsEmpty, jsLookup, hsp, hts,
      Except.pure, Except.bind, Except.map, bind, Functor.map, pure]

/-- C5 witness: the slow validator loses the race at the concrete inputs. -/
theorem async_timeout_reports_async_validation_error_witness :
    slowRefineValidator (.str "bob") = .settles 100 (.resolveBool false) ∧ 50 ≤ 100 ∧
    executeAsyncValidator slowRefineValidator (.str "bob")
        ⟨"username", Value.obj usernameDemoData, some (Value.obj usernameDemoData)⟩
        none false 50 =
      some { field := "username"
             path := some (jsSplitDot "username")
             code := "ASYNC_VALIDATION_ERROR"
             message := "Async validation timed out after " ++ toString 50 ++ "ms"
             severity := if false then .soft else .hard
             received := some (.str "bob")
             expected := none } :=
  ⟨rfl, by decide,
    (async_timeout_reports_async_validation_error slowRefineValidator (.str "bob")
      ⟨"username", Value.obj usernameDemoData, some (Value.obj usernameDemoData)⟩
      none false 50 100 (.resolveBool false) rfl (by decide)).1⟩

/-- C6 counterexample: contrary to the spec ("a synchronous rule throwing
inside an async pass must be caught ... never allowed to reject the overall
call"), a `custom` rule whose callback throws during `validateAsync` is not
wrapped in any try/catch: the exception rejects the whole call. -/
theorem sync_throw_rejects_async_cex :
    validateAsync throwingDemoSchema throwingDemoData = .error ⟨"boom"⟩ := by
  rw [validateAsync, validateSchemaAsyncFields.eq_def]
  simp only [Option.getD]
  rw [validateFieldsAsyncGo.eq_def]
  simp [validateFieldAsync.eq_def, validateFieldAsyncRest.eq_def, runRulesAsync,
    throwingDemoSchema, throwingDemoData, mkField, throwingCustomRule,
    getTypeValidator, typeValidatorString, isPresentV, isUndefV, isNullValue, jsTypeof,
    valueIsEmpty, jsLookup, getValidator, customValidator, mergeRuleParams,
    Except.pure, Except.bind, Except.map, bind, Functor.map, pure]

/-- C6 amended: only failures of the `refineAsync` promise itself — a
synchronous throw inside the async validator or a rejection before the
timeout — are caught by `executeAsyncValidator` and converted into an
`ASYNC_VALIDATION_ERROR` at the rule's severity; a throwing synchronous
rule, by contrast, rejects the pass (see the counterexample). -/
theorem async_throw_handling_amended
    (f : Value → AsyncBehavior) (v : Value) (ctx : ValidatorContext)
    (msg : Option String) (soft : Bool) (timeoutMs : Nat) (m : String) :
    (f v = .throwsSync m →
      executeAsyncValidator f v ctx msg soft timeoutMs =
        some { field := ctx.path
               path := some (jsSplitDot ctx.path)
               code := "ASYNC_VALIDATION_ERROR"
               message := m
               severity := if soft then .soft else .hard
               received := some v
               expected := none }) ∧
    (∀ t : Nat, f v = .settles t (.rejected m) → t < timeoutMs →
      executeAsyncValidator f v ctx msg soft timeoutMs =
        some { field := ctx.path
               path := some (jsSplitDot ctx.path)
               code := "ASYNC_VALIDATION_ERROR"
               message := m
               severity := if soft then .soft else .hard
               received := some v
               expected := none }) := by
  constructor
  · intro hf
    rw [executeAsyncValidator, hf]
  · intro t hf hlt
    rw [executeAsyncValidator, hf]
    simp only [if_pos hlt]

/-- C6 amended witness: a throwing async validator and a rejecting one are
both caught at concrete inputs. -/
theorem async_throw_handling_amended_witness :
    ((fun _ : Value => AsyncBehavior.throwsSync "bad") (.str "u") = .throwsSync "bad" ∧
      executeAsyncValidator (fun _ => AsyncBehavior.throwsSync "bad") (.str "u") ctx0
          none false 5000 =
        some { field := "a"
               path := some (jsSplitDot "a")
               code := "ASYNC_VALIDATION_ERROR"
               message := "bad"
               severity := if false then .soft else .hard
               received := some (.str "u")
               expected := none }) ∧
    ((fun _ : Value => AsyncBehavior.settles 10 (.rejected "no")) (.str "u") =
        .settles 10 (.rejected "no") ∧ 10 < 5000 ∧
      executeAsyncValidator (fun _ => AsyncBehavior.settles 10 (.rejected "no")) (.str "u")
          ctx0 none false 5000 =
        some { field := "a"
               path := some (jsSplitDot "a")
               code := "ASYNC_VALIDATION_ERROR"
               message := "no"
               severity := if false then .soft else .hard
               received := some (.str "u")
               expected := none }) :=
  ⟨⟨rfl, (async_throw_handling_amended (fun _ => AsyncBehavior.throwsSync "bad") (.str "u")
      ctx0 none false 5000 "bad").1 rfl⟩,
   ⟨rfl, by decide, (async_throw_handling_amended
      (fun _ => AsyncBehavior.settles 10 (.rejected "no")) (.str "u")
      ctx0 none false 5000 "no").2 10 rfl (by decide)⟩⟩

end Unischema
